import Mathlib

/-!
Verification development for the chunked-canvas storage engine
(`GetAndActivateChunk`, `Canvas_Update`, `Canvas_Save`, `Canvas_Load`,
`Undo_EndAction`, `Undo_PerformUndo`, `Undo_PerformRedo`).

Shallow embedding conventions:
* Grid coordinates are stored by the C code as raylib `Vector2` (a pair of
  32-bit floats) but every grid coordinate the program ever stores is an
  exact small integer (it is produced by `floorf` or by casting an `int`
  loop index), so we model a grid coordinate as `Int × Int`;
  `Vector2Equals` on such exactly-representable values coincides with
  integer equality.
* A chunk's pixel content is modelled as `Img := List Nat`, the RGBA8 byte
  list in row-major top-to-bottom order — the orientation produced by
  `LoadImageFromTexture` + `ImageFlipVertical`.  GPU render textures store
  pixels bottom-up, but every conversion in the program pairs the dump with
  a vertical flip (and the draw-back inverts it), so tracking content in
  the flipped (file/cache) orientation is exact.
* The fixed-size C arrays (`chunks`, `cache`) are modelled as lists whose
  length plays the role of `totalChunks` / `cacheSize`; the C loops run
  over exactly those lengths.
* Fallible operations (`GetAndActivateChunk` returning `NULL`, `fread`
  falling short) are modelled with `Option`.
-/

namespace CCanvas

/-- `#define CHUNK_SIZE 1024` -/
def CHUNK_SIZE : Nat := 1024

/-- `#define CHUNK_POOL_RADIUS 5` -/
def CHUNK_POOL_RADIUS : Nat := 5

/-- `#define MAX_CACHED_CHUNKS 512` -/
def MAX_CACHED_CHUNKS : Nat := 512

/-- `#define MAX_UNDO_ACTIONS 100` -/
def MAX_UNDO_ACTIONS : Nat := 100

/-- `#define SAVE_FILE_MAGIC 0x43414E56` ("CANV") -/
def SAVE_FILE_MAGIC : Nat := 0x43414E56

/-- `#define SAVE_FILE_VERSION 1` -/
def SAVE_FILE_VERSION : Nat := 1

/-- Number of bytes of one chunk's pixel payload:
`sizeof(Color) * CHUNK_SIZE * CHUNK_SIZE` (RGBA8). -/
def PIXEL_BYTES : Nat := CHUNK_SIZE * CHUNK_SIZE * 4

/-- Pixel content of one chunk: RGBA8 bytes, row-major, top-to-bottom. -/
abbrev Img : Type := List Nat

/-- `typedef struct CanvasChunk { RenderTexture2D texture; Vector2 gridPos;
bool active; bool modified; }` — `texture` carries the pixel content of the
render texture (see the header comment for the orientation convention). -/
structure CanvasChunk where
  texture : Img
  gridPos : Int × Int
  active : Bool
  modified : Bool
  deriving DecidableEq, Repr

instance : Inhabited CanvasChunk := ⟨⟨[], (0, 0), false, false⟩⟩

/-- `typedef struct CachedChunk { Image image; Vector2 gridPos; bool active; }` -/
structure CachedChunk where
  image : Img
  gridPos : Int × Int
  active : Bool
  deriving DecidableEq, Repr

instance : Inhabited CachedChunk := ⟨⟨[], (0, 0), false⟩⟩

/-- `typedef struct UndoChunkState { Image beforeImage; Vector2 gridPos; }` -/
structure UndoChunkState where
  beforeImage : Img
  gridPos : Int × Int
  deriving DecidableEq, Repr

instance : Inhabited UndoChunkState := ⟨⟨[], (0, 0)⟩⟩

/-- `typedef struct UndoAction { UndoChunkState *chunkStates; int numChunks; }`
— `numChunks` is the list length. -/
structure UndoAction where
  chunkStates : List UndoChunkState
  deriving DecidableEq, Repr

instance : Inhabited UndoAction := ⟨⟨[]⟩⟩

/-- `typedef struct UndoState { UndoAction undoStack[MAX_UNDO_ACTIONS];
UndoAction redoStack[MAX_UNDO_ACTIONS]; int undoCount; int redoCount;
UndoAction *currentAction; }` — each stack is the list of its first
`count` entries, index 0 (the list head) being the oldest action. -/
structure UndoState where
  undoStack : List UndoAction
  redoStack : List UndoAction
  currentAction : Option UndoAction
  deriving DecidableEq, Repr

/-- `typedef struct Canvas { CanvasChunk *chunks; int totalChunks;
CachedChunk *cache; int cacheSize; UndoState undoState; }` —
`totalChunks` and `cacheSize` are the list lengths. -/
structure Canvas where
  chunks : List CanvasChunk
  cache : List CachedChunk
  undoState : UndoState
  deriving DecidableEq, Repr

/-- The padded visible grid window `[minX, maxX] × [minY, maxY]` computed by
`Canvas_Update` from the unprojected screen corners plus
`CHUNK_LOAD_PADDING` (the float camera arithmetic that produces these four
integers is outside the storage engine and is taken as the parameter). -/
structure Window where
  minX : Int
  minY : Int
  maxX : Int
  maxY : Int
  deriving DecidableEq, Repr

/-- raylib `Vector2Equals` on the exactly-representable integer grid
coordinates the program stores: componentwise equality. -/
def Vector2Equals (a b : Int × Int) : Bool :=
  a.1 == b.1 && a.2 == b.2

/-- Index of the first element of `l` satisfying `p` — the search pattern of
every `for (i = 0; ...; i++) if (p) ...` scan in the program. -/
def firstIdx (p : α → Bool) : List α → Option Nat
  | [] => none
  | a :: as => if p a then some 0 else (firstIdx p as).map (· + 1)

/-- `canvas->chunks[i]` (out-of-range reads return the default; the code
never performs them). -/
def getChunk (c : Canvas) (i : Nat) : CanvasChunk :=
  c.chunks.getD i default

/-- `canvas->cache[j]` -/
def getCached (c : Canvas) (j : Nat) : CachedChunk :=
  c.cache.getD j default

/-- Content of a freshly created blank chunk:
`ClearBackground(RAYWHITE)` flood fill, RAYWHITE = (245,245,245,255). -/
def blankImg : Img :=
  (List.replicate (CHUNK_SIZE * CHUNK_SIZE) [245, 245, 245, 255]).flatten

/-- `Canvas_Create`: `(2r+1)²` inactive pool slots and `MAX_CACHED_CHUNKS`
inactive cache slots; `malloc` leaves the other fields indeterminate, which
we model with the default values; empty undo state. -/
def Canvas_Create : Canvas :=
  { chunks := List.replicate ((CHUNK_POOL_RADIUS * 2 + 1) * (CHUNK_POOL_RADIUS * 2 + 1)) default
    cache := List.replicate MAX_CACHED_CHUNKS default
    undoState := ⟨[], [], none⟩ }

/-- `GetAndActivateChunk(canvas, gridPos)`: return the resident chunk if
`gridPos` is already active in the pool; otherwise claim the first
inactive pool slot, hydrating it from the cache (removing the cache entry
and setting `modified = true`) when the coordinate is cached, else filling
it blank with `modified = false`; `none` models the `NULL` return when the
pool is saturated.  The result is the slot index together with the updated
canvas. -/
def GetAndActivateChunk (c : Canvas) (g : Int × Int) : Option (Nat × Canvas) :=
  match firstIdx (fun ch => ch.active && Vector2Equals ch.gridPos g) c.chunks with
  | some i => some (i, c)
  | none =>
    match firstIdx (fun ch => !ch.active) c.chunks with
    | none => none
    | some i =>
      match firstIdx (fun s => s.active && Vector2Equals s.gridPos g) c.cache with
      | some j =>
        some (i,
          { c with
            chunks := c.chunks.set i
              { texture := (c.cache.getD j default).image, gridPos := g,
                active := true, modified := true }
            cache := c.cache.set j { c.cache.getD j default with active := false } })
      | none =>
        some (i,
          { c with
            chunks := c.chunks.set i
              { texture := blankImg, gridPos := g, active := true, modified := false } })

/-- The canvas after a `GetAndActivateChunk` call whose slot index is
discarded (the activation loop at the end of `Canvas_Update`). -/
def activateAt (c : Canvas) (g : Int × Int) : Canvas :=
  match GetAndActivateChunk c g with
  | some (_, c') => c'
  | none => c

/-- `Canvas_BeginTextureMode(canvas, worldPos)` restricted to its state
effect, taking the grid cell `WorldToGrid(worldPos)` as parameter: activate
the chunk and set `modified = true`; `none` models the `false` return. -/
def Canvas_BeginTextureMode (c : Canvas) (g : Int × Int) : Option (Nat × Canvas) :=
  match GetAndActivateChunk c g with
  | some (i, c') =>
    some (i, { c' with chunks := c'.chunks.set i { getChunk c' i with modified := true } })
  | none => none

/-- One complete drawing operation on the chunk of grid cell `g`:
`Canvas_BeginTextureMode` (activate + mark modified), the raylib draw calls
(which replace the texture content by some new content `img`), and
`Canvas_EndTextureMode`.  When activation fails the caller skips the draw. -/
def drawOp (c : Canvas) (g : Int × Int) (img : Img) : Canvas :=
  match GetAndActivateChunk c g with
  | some (i, c') =>
    c'.chunks.set i { getChunk c' i with modified := true, texture := img } |>
      fun chs => { c' with chunks := chs }
  | none => c

/-- `pos.x < minX || pos.x > maxX || pos.y < minY || pos.y > maxY`:
the eviction test of `Canvas_Update`. -/
def outOfWindow (w : Window) (g : Int × Int) : Bool :=
  g.1 < w.minX || g.1 > w.maxX || g.2 < w.minY || g.2 > w.maxY

/-- The cache-insertion attempt inside `Canvas_Update`'s eviction pass:
store the snapshot in the first inactive cache slot; `none` when every
slot is occupied (the cache-full data-loss case). -/
def cacheInsert (cache : List CachedChunk) (g : Int × Int) (img : Img) :
    Option (List CachedChunk) :=
  match firstIdx (fun s => !s.active) cache with
  | some j => some (cache.set j { image := img, gridPos := g, active := true })
  | none => none

/-- The body of `Canvas_Update`'s eviction loop for pool index `i`,
threading the canvas and the list of coordinates reported as data loss
(the `WARNING: CPU cache is full!` message). -/
def evictStep (w : Window) (st : Canvas × List (Int × Int)) (i : Nat) :
    Canvas × List (Int × Int) :=
  let c := st.1
  let ch := getChunk c i
  if ch.active && outOfWindow w ch.gridPos then
    let next :=
      if ch.modified then
        match cacheInsert c.cache ch.gridPos ch.texture with
        | some cache' => (cache', st.2)
        | none => (c.cache, st.2 ++ [ch.gridPos])
      else (c.cache, st.2)
    ({ c with cache := next.1, chunks := c.chunks.set i { ch with active := false } },
      next.2)
  else st

/-- The eviction loop of `Canvas_Update` over the given pool indices. -/
def evictLoop (w : Window) : List Nat → Canvas × List (Int × Int) → Canvas × List (Int × Int)
  | [], st => st
  | i :: rest, st => evictLoop w rest (evictStep w st i)

/-- The full eviction pass of `Canvas_Update`
(`for (i = 0; i < totalChunks; i++) ...`), also returning the coordinates
whose pixel data was lost to a full cache. -/
def evictPhase (w : Window) (c : Canvas) : Canvas × List (Int × Int) :=
  evictLoop w (List.range c.chunks.length) (c, [])

/-- `[lo, hi]` as a list of integers (the `for (v = lo; v <= hi; v++)` range). -/
def intRange (lo hi : Int) : List Int :=
  (List.range (hi + 1 - lo).toNat).map (fun k => lo + (k : Int))

/-- The grid coordinates activated by `Canvas_Update`'s second loop,
row by row. -/
def windowCoords (w : Window) : List (Int × Int) :=
  (intRange w.minY w.maxY).flatMap (fun y => (intRange w.minX w.maxX).map (fun x => (x, y)))

/-- `Canvas_Update(canvas, camera, ...)` restricted to its state effect and
parameterised by the padded visible grid window it computes: evict every
active out-of-window chunk (caching it if modified), then activate every
in-window coordinate. -/
def Canvas_Update (c : Canvas) (w : Window) : Canvas :=
  (windowCoords w).foldl activateAt (evictPhase w c).1

/-! ## Persistence codec -/

/-- Little-endian byte value of four bytes (`fread`/`fwrite` of a 32-bit
quantity on a little-endian machine). -/
def leNat (b0 b1 b2 b3 : Nat) : Nat :=
  b0 + 256 * b1 + 65536 * b2 + 16777216 * b3

/-- The four little-endian bytes of a 32-bit value (`fwrite(&x, 4, 1, f)`). -/
def u32le (n : Nat) : List Nat :=
  [n % 256, n / 256 % 256, n / 65536 % 256, n / 16777216 % 256]

/-- Fuel-bounded floor of the base-2 logarithm (`fuel ≥ n` suffices);
structurally recursive so that concrete bit patterns compute. -/
def floorLog2Aux : Nat → Nat → Nat
  | 0, _ => 0
  | fuel + 1, n => if n ≤ 1 then 0 else floorLog2Aux fuel (n / 2) + 1

/-- `⌊log₂ n⌋` (0 at 0), used for the float exponent of a stored grid
coordinate. -/
def floorLog2 (n : Nat) : Nat := floorLog2Aux n n

/-- IEEE-754 binary32 bit pattern of an integer-valued float.  The program
stores grid coordinates as `Vector2` floats; every stored coordinate is an
exact small integer, for which this round-to-nearest-free formula is the
exact encoding (`e = ⌊log₂ |n|⌋`, mantissa `|n|·2²³⁻ᵉ − 2²³`). -/
def f32bitsOfInt (n : Int) : Nat :=
  if n = 0 then 0
  else
    (if n < 0 then 2 ^ 31 else 0) + (floorLog2 n.natAbs + 127) * 2 ^ 23
      + (n.natAbs * 2 ^ 23 / 2 ^ floorLog2 n.natAbs - 2 ^ 23)

/-- The integer value of an IEEE-754 binary32 bit pattern (truncated toward
zero; exact on the integer-valued patterns the program writes).  The biased
exponent is `b / 2²³ % 256`, the mantissa `b % 2²³`, the sign `b / 2³¹`. -/
def intOfF32bits (b : Nat) : Int :=
  if b / 2 ^ 23 % 256 = 0 then 0
  else if 150 ≤ b / 2 ^ 23 % 256 then
    (if b / 2 ^ 31 % 2 = 1 then -1 else 1) *
      (((2 ^ 23 + b % 2 ^ 23) * 2 ^ (b / 2 ^ 23 % 256 - 150) : Nat) : Int)
  else
    (if b / 2 ^ 31 % 2 = 1 then -1 else 1) *
      (((2 ^ 23 + b % 2 ^ 23) / 2 ^ (150 - b / 2 ^ 23 % 256) : Nat) : Int)

/-- `fwrite(&gridCoord.x, sizeof(float), 1, file)`: the four bytes of one
coordinate component as the program actually writes it — a 32-bit float. -/
def f32le (n : Int) : List Nat :=
  u32le (f32bitsOfInt n)

/-- Modelled from the spec: the `i32 gridX` / `i32 gridY` encoding §6 claims
for the record layout — a signed 32-bit two's-complement little-endian
integer.  Defined only to compare the claimed layout with the source's. -/
def i32le (n : Int) : List Nat :=
  u32le (n % 2 ^ 32).toNat

/-- The records `Canvas_Save` emits, in emission order: first every pool
chunk with `active && modified`, then every active cache slot; each record
is the grid coordinate and the chunk's pixel snapshot. -/
def savePoolRecs : List CanvasChunk → List ((Int × Int) × Img)
  | [] => []
  | ch :: rest =>
    if ch.active && ch.modified then (ch.gridPos, ch.texture) :: savePoolRecs rest
    else savePoolRecs rest

/-- The cache-slot records of `Canvas_Save` (every `active` slot). -/
def saveCacheRecs : List CachedChunk → List ((Int × Int) × Img)
  | [] => []
  | s :: rest =>
    if s.active then (s.gridPos, s.image) :: saveCacheRecs rest
    else saveCacheRecs rest

/-- All records `Canvas_Save` writes after the header. -/
def Canvas_Save_records (c : Canvas) : List ((Int × Int) × Img) :=
  savePoolRecs c.chunks ++ saveCacheRecs c.cache

/-- The bytes of one record as `Canvas_Save` writes them:
`fwrite(&gridPos, sizeof(Vector2), 1, file)` (two 32-bit floats) followed by
`fwrite(img.data, sizeof(Color), CHUNK_SIZE*CHUNK_SIZE, file)`. -/
def encodeRecord (r : (Int × Int) × Img) : List Nat :=
  f32le r.1.1 ++ f32le r.1.2 ++ r.2

/-- The complete byte stream `Canvas_Save` writes:
`u32 magic`, `u32 version`, then the records. -/
def Canvas_Save_bytes (c : Canvas) : List Nat :=
  u32le SAVE_FILE_MAGIC ++ u32le SAVE_FILE_VERSION
    ++ (Canvas_Save_records c).flatMap encodeRecord

/-- `Canvas_Save`'s effect on the canvas state: it only reads the chunks
(`LoadImageFromTexture` copies) and writes the file; no canvas field is
assigned anywhere in the function. -/
def Canvas_Save_state (c : Canvas) : Canvas := c

/-- Modelled from the spec: the record-stream layout §6 describes, with the
grid coordinate as two `i32` values instead of the two floats the source
writes.  Defined only to compare the claimed layout with the source's. -/
def claimedSaveBytes (c : Canvas) : List Nat :=
  u32le SAVE_FILE_MAGIC ++ u32le SAVE_FILE_VERSION
    ++ (Canvas_Save_records c).flatMap (fun r => i32le r.1.1 ++ i32le r.1.2 ++ r.2)

/-- Outcome of `Canvas_Load` (the function itself returns `void` and
reports through `printf`): could not open, header invalid, or loaded. -/
inductive LoadResult where
  | openFail : LoadResult
  | badHeader : LoadResult
  | ok : LoadResult
  deriving DecidableEq, Repr

/-- `fread(&x, sizeof(unsigned int), 1, file)`: four bytes or failure. -/
def readU32 : List Nat → Option (Nat × List Nat)
  | b0 :: b1 :: b2 :: b3 :: rest => some (leNat b0 b1 b2 b3, rest)
  | _ => none

/-- `fread(&gridPos, sizeof(Vector2), 1, file)`: succeeds only when a full
8-byte item is available (`fread` returns the count of complete items);
the two components are the integer values of the stored floats. -/
def readGridPos (s : List Nat) : Option ((Int × Int) × List Nat) :=
  match s with
  | x0 :: x1 :: x2 :: x3 :: y0 :: y1 :: y2 :: y3 :: rest =>
    some ((intOfF32bits (leNat x0 x1 x2 x3), intOfF32bits (leNat y0 y1 y2 y3)), rest)
  | _ => none

/-- `fread(img.data, sizeof(Color), CHUNK_SIZE * CHUNK_SIZE, file)` with its
return value ignored: consumes up to `PIXEL_BYTES` bytes; the prefix that
was actually read is the only defined part of the buffer (the rest of the
`malloc`ed buffer stays uninitialized). -/
def readPixels (s : List Nat) : Img × List Nat :=
  (s.take PIXEL_BYTES, s.drop PIXEL_BYTES)

/-- The record loop of `Canvas_Load`: read records while a complete
coordinate is available and fewer than `fuel` (= `cacheSize`) records have
been stored; a short pixel read is not detected and the record is kept. -/
def loadRecords (s : List Nat) : Nat → List ((Int × Int) × Img)
  | 0 => []
  | fuel + 1 =>
    match readGridPos s with
    | none => []
    | some (g, rest) =>
      let pr := readPixels rest
      (g, pr.1) :: loadRecords pr.2 fuel

/-- The state-clearing block of `Canvas_Load` after a valid header: every
pool chunk released and deactivated, every cache slot released and
deactivated, `Undo_Destroy` + `undoState = (UndoState){0}`. -/
def clearState (c : Canvas) : Canvas :=
  { chunks := c.chunks.map (fun ch => { ch with active := false })
    cache := c.cache.map (fun s => { s with active := false })
    undoState := ⟨[], [], none⟩ }

/-- `canvas->cache[cacheIndex] = ...; cacheIndex++` over the streamed
records: slots `0, 1, ...` are overwritten in order, the remaining slots
keep their (cleared) contents. -/
def fillCache : List CachedChunk → List ((Int × Int) × Img) → List CachedChunk
  | [], _ => []
  | slots, [] => slots
  | _ :: slots, (g, img) :: rs => { image := img, gridPos := g, active := true } :: fillCache slots rs

/-- `Canvas_Load(canvas, path)`: `none` input models an unopenable file.
The header is read and validated first; on magic/version mismatch the
function returns before any state mutation (a file too short to fill the
header leaves `magic`/`version` indeterminate, which we model as the
mismatch branch).  Only after validation is the canvas cleared and the
record stream copied into cache slots `0 ..`. -/
def Canvas_Load (c : Canvas) (file : Option (List Nat)) : LoadResult × Canvas :=
  match file with
  | none => (.openFail, c)
  | some s =>
    match readU32 s with
    | none => (.badHeader, c)
    | some (magic, s1) =>
      match readU32 s1 with
      | none => (.badHeader, c)
      | some (version, s2) =>
        if magic = SAVE_FILE_MAGIC ∧ version = SAVE_FILE_VERSION then
          let c1 := clearState c
          (.ok, { c1 with cache := fillCache c1.cache (loadRecords s2 c.cache.length) })
        else (.badHeader, c)

/-- `Canvas_Load` at the record level: the effect of a load whose header
validated, applied to an already-decoded record list (each record of the
byte stream carries exactly `PIXEL_BYTES` payload bytes, so the stream and
the record list determine each other); at most `cacheSize` records are
consumed. -/
def Canvas_Load_records (c : Canvas) (recs : List ((Int × Int) × Img)) : Canvas :=
  let c1 := clearState c
  { c1 with cache := fillCache c1.cache (recs.take c.cache.length) }

/-! ## Undo/redo module -/

/-- `Undo_EndAction`: discard an empty (or absent) open action; otherwise
push it, dropping the oldest stack entry first when the stack is at
capacity, and clear the redo stack in full. -/
def Undo_EndAction (u : UndoState) : UndoState :=
  match u.currentAction with
  | none => u
  | some a =>
    if a.chunkStates.length = 0 then { u with currentAction := none }
    else
      let stack := if MAX_UNDO_ACTIONS ≤ u.undoStack.length then u.undoStack.tail else u.undoStack
      { undoStack := stack ++ [a], redoStack := [], currentAction := none }

/-- The mirror-capture loops of `Undo_PerformUndo`/`Undo_PerformRedo`:
for each recorded coordinate, `GetAndActivateChunk` then an unchecked
dereference of the result (`chunk->texture.texture`); `none` models the
null-pointer dereference when activation fails. -/
def captureStates (c : Canvas) : List (Int × Int) → Option (List UndoChunkState × Canvas)
  | [] => some ([], c)
  | g :: rest =>
    match GetAndActivateChunk c g with
    | none => none
    | some (i, c') =>
      match captureStates c' rest with
      | none => none
      | some (l, c'') => some ({ beforeImage := (getChunk c' i).texture, gridPos := g } :: l, c'')

/-- `ApplyUndoAction`: write each recorded before-snapshot back onto its
chunk and mark it modified — skipping any coordinate whose activation
fails (this path does check `chunk` for `NULL`). -/
def ApplyUndoAction (c : Canvas) (a : UndoAction) : Canvas :=
  a.chunkStates.foldl
    (fun c st =>
      match GetAndActivateChunk c st.gridPos with
      | some (i, c') =>
        { c' with
          chunks := c'.chunks.set i
            { getChunk c' i with texture := st.beforeImage, modified := true } }
      | none => c)
    c

/-- `Undo_PerformUndo`: no-op on an empty undo stack; otherwise pop the top
action, capture the mirror (redo) action from the current chunk contents,
apply the stored before-snapshots, and push the mirror onto the redo stack
— unless the redo stack is full, in which case the mirror is released and
discarded.  `none` models the crash of the unchecked mirror-capture
dereference. -/
def Undo_PerformUndo (c : Canvas) : Option Canvas :=
  match c.undoState.undoStack.getLast? with
  | none => some c
  | some A =>
    let c1 := { c with undoState := { c.undoState with undoStack := c.undoState.undoStack.dropLast } }
    match captureStates c1 (A.chunkStates.map (·.gridPos)) with
    | none => none
    | some (mirror, c2) =>
      let c3 := ApplyUndoAction c2 A
      if c3.undoState.redoStack.length < MAX_UNDO_ACTIONS then
        some { c3 with undoState :=
          { c3.undoState with redoStack := c3.undoState.redoStack ++ [⟨mirror⟩] } }
      else some c3

/-- `Undo_PerformRedo`: symmetric to `Undo_PerformUndo` with the two stacks
exchanged. -/
def Undo_PerformRedo (c : Canvas) : Option Canvas :=
  match c.undoState.redoStack.getLast? with
  | none => some c
  | some A =>
    let c1 := { c with undoState := { c.undoState with redoStack := c.undoState.redoStack.dropLast } }
    match captureStates c1 (A.chunkStates.map (·.gridPos)) with
    | none => none
    | some (mirror, c2) =>
      let c3 := ApplyUndoAction c2 A
      if c3.undoState.undoStack.length < MAX_UNDO_ACTIONS then
        some { c3 with undoState :=
          { c3.undoState with undoStack := c3.undoState.undoStack ++ [⟨mirror⟩] } }
      else some c3

/-! ## The storage-engine state machine (for the residency invariant) -/

/-- One storage-engine operation: activation, a drawing call, a viewport
sweep, or save/load of a named file (files exist only once saved, starting
from a fresh canvas). -/
inductive Op where
  | activate : Int × Int → Op
  | draw : Int × Int → Img → Op
  | sweep : Window → Op
  | save : Nat → Op
  | load : Nat → Op

/-- The canvas together with the save files written so far (record-level
content, see `Canvas_Load_records`). -/
structure Sys where
  canvas : Canvas
  files : Nat → Option (List ((Int × Int) × Img))

/-- One step of the storage engine.  A load of a file that does not exist
is the failed-`fopen` path and mutates nothing. -/
def stepOp (s : Sys) (op : Op) : Sys :=
  match op with
  | .activate g => { s with canvas := activateAt s.canvas g }
  | .draw g img => { s with canvas := drawOp s.canvas g img }
  | .sweep w => { s with canvas := Canvas_Update s.canvas w }
  | .save n =>
    { s with files := fun m => if m = n then some (Canvas_Save_records s.canvas) else s.files m }
  | .load n =>
    match s.files n with
    | none => s
    | some recs => { s with canvas := Canvas_Load_records s.canvas recs }

/-- Run a sequence of operations from a fresh canvas with no files. -/
def runOps (ops : List Op) : Sys :=
  ops.foldl stepOp ⟨Canvas_Create, fun _ => none⟩

/-- No two active pool slots hold the same grid coordinate. -/
def PoolNodup (c : Canvas) : Prop :=
  ∀ i j, i < c.chunks.length → j < c.chunks.length → i ≠ j →
    (getChunk c i).active = true → (getChunk c j).active = true →
    (getChunk c i).gridPos ≠ (getChunk c j).gridPos

/-- No two active cache slots hold the same grid coordinate. -/
def CacheNodup (c : Canvas) : Prop :=
  ∀ i j, i < c.cache.length → j < c.cache.length → i ≠ j →
    (getCached c i).active = true → (getCached c j).active = true →
    (getCached c i).gridPos ≠ (getCached c j).gridPos

/-- No grid coordinate is simultaneously active in the pool and the cache. -/
def TiersDisjoint (c : Canvas) : Prop :=
  ∀ i j, i < c.chunks.length → j < c.cache.length →
    (getChunk c i).active = true → (getCached c j).active = true →
    (getChunk c i).gridPos ≠ (getCached c j).gridPos

/-- Invariant I1: every grid coordinate is held by at most one slot across
the two tiers. -/
def UniqueResidency (c : Canvas) : Prop :=
  PoolNodup c ∧ CacheNodup c ∧ TiersDisjoint c

/-! ## Concrete states used by the witnesses and counterexamples -/

/-- The system invariant: residency uniqueness of the canvas plus
distinct-coordinate record lists in every saved file. -/
def SysInv (s : Sys) : Prop :=
  UniqueResidency s.canvas ∧
    ∀ n recs, s.files n = some recs → recs.Pairwise (fun a b => a.1 ≠ b.1)

/-- `gridPos` is resident: some active pool slot holds it (the fast path of
`GetAndActivateChunk` succeeds without touching anything). -/
def isResident (c : Canvas) (g : Int × Int) : Bool :=
  (firstIdx (fun ch => ch.active && Vector2Equals ch.gridPos g) c.chunks).isSome

/-- A saturated-pool state whose pending undo action records a coordinate
held by no resident chunk: the mirror-capture loop dereferences the `NULL`
activation result. -/
def crashCanvas : Canvas :=
  { chunks := [⟨[], (5, 5), true, false⟩]
    cache := []
    undoState := ⟨[⟨[⟨[], (0, 0)⟩]⟩], [], none⟩ }

/-- A one-slot pool holding a modified chunk far outside the window, with
every cache slot occupied. -/
def c2Canvas : Canvas :=
  { chunks := [⟨[1], (10, 10), true, true⟩]
    cache := [⟨[2], (0, 0), true⟩, ⟨[3], (1, 0), true⟩]
    undoState := ⟨[], [], none⟩ }

/-- The padded window `[0,1] × [0,1]`. -/
def w2Window : Window := ⟨0, 0, 1, 1⟩

/-- A one-slot pool with a free slot and a cache holding coordinate
`(2, 3)`. -/
def c3Canvas : Canvas :=
  { chunks := [default]
    cache := [⟨[5], (2, 3), true⟩]
    undoState := ⟨[], [], none⟩ }

/-- An undo state at capacity with a one-chunk open action. -/
def u4State : UndoState :=
  ⟨List.replicate MAX_UNDO_ACTIONS ⟨[⟨[1], (9, 9)⟩]⟩, [⟨[⟨[4], (8, 8)⟩]⟩],
    some ⟨[⟨[2], (1, 1)⟩]⟩⟩

/-- A canvas whose redo stack is full and whose one-chunk undo action
records the resident coordinate `(0, 0)`. -/
def c5Canvas : Canvas :=
  { chunks := [⟨[7], (0, 0), true, true⟩]
    cache := []
    undoState := ⟨[⟨[⟨[5], (0, 0)⟩]⟩], List.replicate MAX_UNDO_ACTIONS ⟨[⟨[1], (9, 9)⟩]⟩,
      none⟩ }

/-- A header whose magic word is zero. -/
def c6File : List Nat := u32le 0 ++ u32le SAVE_FILE_VERSION

/-- A canvas with one modified active chunk at `(1, 0)` (tiny payload;
the coordinate bytes are what the counterexample inspects). -/
def c7cxCanvas : Canvas :=
  { chunks := [⟨[], (1, 0), true, true⟩]
    cache := []
    undoState := ⟨[], [], none⟩ }

/-- A canvas holding one full-size modified chunk at `(1, 0)`. -/
def c7Canvas : Canvas :=
  { chunks := [⟨List.replicate PIXEL_BYTES 0, (1, 0), true, true⟩]
    cache := []
    undoState := ⟨[], [], none⟩ }

/-- A destination canvas with one (inactive) cache slot. -/
def c7Dest : Canvas :=
  { chunks := []
    cache := [default]
    undoState := ⟨[], [], none⟩ }

/-- A canvas with one active modified chunk. -/
def c8Canvas : Canvas :=
  { chunks := [⟨[1], (0, 0), true, true⟩]
    cache := []
    undoState := ⟨[], [], none⟩ }

/-- A destination canvas with a single cache slot. -/
def c10Canvas : Canvas :=
  { chunks := []
    cache := [default]
    undoState := ⟨[], [], none⟩ }

/-! ## Basic lemmas: `Vector2Equals`, `firstIdx`, `getD`/`set` -/

theorem Vector2Equals_iff (a b : Int × Int) : Vector2Equals a b = true ↔ a = b := by
  cases a; cases b
  simp [Vector2Equals, Prod.ext_iff]

theorem Vector2Equals_self (a : Int × Int) : Vector2Equals a a = true := by
  simp [Vector2Equals_iff]

theorem getD_set_self {α : Type} [Inhabited α] (l : List α) (i : Nat) (a : α)
    (h : i < l.length) : (l.set i a).getD i default = a := by
  induction l generalizing i with
  | nil => simp at h
  | cons x xs ih =>
    cases i with
    | zero => simp [List.set]
    | succ n =>
      simp only [List.set, List.getD_cons_succ]
      exact ih n (by simpa using h)

theorem getD_set_ne {α : Type} [Inhabited α] (l : List α) (i j : Nat) (a : α)
    (h : i ≠ j) : (l.set i a).getD j default = l.getD j default := by
  induction l generalizing i j with
  | nil => simp [List.set]
  | cons x xs ih =>
    cases i with
    | zero =>
      cases j with
      | zero => exact absurd rfl h
      | succ m => simp [List.set]
    | succ n =>
      cases j with
      | zero => simp [List.set]
      | succ m =>
        simp only [List.set, List.getD_cons_succ]
        exact ih n m (by omega)

theorem getD_map_active {α β : Type} [Inhabited α] [Inhabited β] (f : α → β) (l : List α)
    (i : Nat) (h : i < l.length) : (l.map f).getD i default = f (l.getD i default) := by
  induction l generalizing i with
  | nil => simp at h
  | cons x xs ih =>
    cases i with
    | zero => simp
    | succ n =>
      simp only [List.map, List.getD_cons_succ]
      exact ih n (by simpa using h)

theorem getD_replicate {α : Type} [Inhabited α] (n i : Nat) (a : α) :
    (List.replicate n a).getD i default = if i < n then a else default := by
  induction n generalizing i with
  | zero => simp
  | succ m ih =>
    cases i with
    | zero => simp [List.replicate]
    | succ k =>
      simp only [List.replicate, List.getD_cons_succ, ih]
      by_cases hkm : k < m
      · rw [if_pos hkm, if_pos (by omega)]
      · rw [if_neg hkm, if_neg (by omega)]

theorem firstIdx_eq_none_iff {α : Type} [Inhabited α] (p : α → Bool) (l : List α) :
    firstIdx p l = none ↔ ∀ i, i < l.length → p (l.getD i default) = false := by
  induction l with
  | nil => simp [firstIdx]
  | cons a as ih =>
    cases hpa : p a with
    | true =>
      simp only [firstIdx, hpa, if_true]
      constructor
      · intro h; exact absurd h (by simp)
      · intro h
        have h0 := h 0 (by simp)
        rw [List.getD_cons_zero, hpa] at h0
        exact absurd h0 (by simp)
    | false =>
      simp only [firstIdx, hpa, Bool.false_eq_true, if_false, Option.map_eq_none', ih]
      constructor
      · intro h i hi
        cases i with
        | zero => rw [List.getD_cons_zero]; exact hpa
        | succ n =>
          rw [List.getD_cons_succ]
          exact h n (by simp only [List.length_cons] at hi; omega)
      · intro h i hi
        have := h (i + 1) (by simp only [List.length_cons]; omega)
        rwa [List.getD_cons_succ] at this

theorem firstIdx_eq_some {α : Type} [Inhabited α] (p : α → Bool) (l : List α) (i : Nat)
    (h : firstIdx p l = some i) :
    i < l.length ∧ p (l.getD i default) = true ∧ ∀ j, j < i → p (l.getD j default) = false := by
  induction l generalizing i with
  | nil => simp [firstIdx] at h
  | cons a as ih =>
    cases hpa : p a with
    | true =>
      rw [firstIdx, hpa] at h
      simp only [if_true, Option.some_inj] at h
      subst h
      refine ⟨by simp, ?_, fun j hj => by omega⟩
      rw [List.getD_cons_zero]; exact hpa
    | false =>
      rw [firstIdx, hpa] at h
      simp only [Bool.false_eq_true, if_false, Option.map_eq_some'] at h
      obtain ⟨k, hk, hki⟩ := h
      obtain ⟨h1, h2, h3⟩ := ih k hk
      subst hki
      refine ⟨by simp only [List.length_cons]; omega, by rwa [List.getD_cons_succ], ?_⟩
      intro j hj
      cases j with
      | zero => rw [List.getD_cons_zero]; exact hpa
      | succ m => rw [List.getD_cons_succ]; exact h3 m (by omega)

theorem firstIdx_isSome_of_exists {α : Type} [Inhabited α] (p : α → Bool) (l : List α)
    (h : ∃ i, i < l.length ∧ p (l.getD i default) = true) : ∃ k, firstIdx p l = some k := by
  cases hf : firstIdx p l with
  | some k => exact ⟨k, rfl⟩
  | none =>
    obtain ⟨i, hi, hp⟩ := h
    have := (firstIdx_eq_none_iff p l).mp hf i hi
    rw [this] at hp
    exact absurd hp (by simp)

/-! ## Characterisation of `GetAndActivateChunk` -/

theorem poolMatch_iff (ch : CanvasChunk) (g : Int × Int) :
    (ch.active && Vector2Equals ch.gridPos g) = true ↔ ch.active = true ∧ ch.gridPos = g := by
  rw [Bool.and_eq_true, Vector2Equals_iff]

theorem cacheMatch_iff (s : CachedChunk) (g : Int × Int) :
    (s.active && Vector2Equals s.gridPos g) = true ↔ s.active = true ∧ s.gridPos = g := by
  rw [Bool.and_eq_true, Vector2Equals_iff]

/-- Frame facts of every successful activation: the lengths and undo state
are preserved, the returned slot holds an active chunk at `g`, no other
pool slot changes, active pool slots never change, and cache slots are at
most deactivated. -/
theorem gac_frame (c : Canvas) (g : Int × Int) (i : Nat) (c' : Canvas)
    (h : GetAndActivateChunk c g = some (i, c')) :
    c'.chunks.length = c.chunks.length ∧
    c'.cache.length = c.cache.length ∧
    c'.undoState = c.undoState ∧
    i < c.chunks.length ∧
    (getChunk c' i).active = true ∧ (getChunk c' i).gridPos = g ∧
    (∀ k, k ≠ i → getChunk c' k = getChunk c k) ∧
    (∀ k, (getChunk c k).active = true → getChunk c' k = getChunk c k) ∧
    (∀ j, getCached c' j = getCached c j ∨
      getCached c' j = { getCached c j with active := false }) := by
  unfold GetAndActivateChunk at h
  cases hf1 : firstIdx (fun ch => ch.active && Vector2Equals ch.gridPos g) c.chunks with
  | some i0 =>
    rw [hf1] at h
    simp only [Option.some_inj, Prod.mk.injEq] at h
    obtain ⟨rfl, rfl⟩ := h
    obtain ⟨hlen, hp, _⟩ := firstIdx_eq_some _ _ _ hf1
    rw [poolMatch_iff] at hp
    exact ⟨rfl, rfl, rfl, hlen, hp.1, hp.2, fun k _ => rfl, fun k _ => rfl, fun j => Or.inl rfl⟩
  | none =>
    rw [hf1] at h
    cases hf2 : firstIdx (fun ch => !ch.active) c.chunks with
    | none => rw [hf2] at h; exact absurd h (by simp)
    | some i0 =>
      rw [hf2] at h
      obtain ⟨hlen0, hp0, _⟩ := firstIdx_eq_some _ _ _ hf2
      have hinact : (getChunk c i0).active = false := by
        simpa [getChunk] using hp0
      cases hf3 : firstIdx (fun s => s.active && Vector2Equals s.gridPos g) c.cache with
      | some j =>
        rw [hf3] at h
        simp only [Option.some_inj, Prod.mk.injEq] at h
        obtain ⟨rfl, rfl⟩ := h
        obtain ⟨hjlen, hpj, _⟩ := firstIdx_eq_some _ _ _ hf3
        refine ⟨by simp [List.length_set], by simp [List.length_set], rfl, hlen0, ?_, ?_, ?_, ?_, ?_⟩
        · show ((c.chunks.set i0 _).getD i0 default).active = true
          rw [getD_set_self _ _ _ hlen0]
        · show ((c.chunks.set i0 _).getD i0 default).gridPos = g
          rw [getD_set_self _ _ _ hlen0]
        · intro k hk
          show (c.chunks.set i0 _).getD k default = _
          rw [getD_set_ne _ _ _ _ (fun e => hk e.symm)]
          rfl
        · intro k hk
          by_cases hki : k = i0
          · subst hki
            have hcontra : (getChunk c k).active = false := hinact
            rw [hk] at hcontra
            exact absurd hcontra (by simp)
          · show (c.chunks.set i0 _).getD k default = _
            rw [getD_set_ne _ _ _ _ (fun e => hki e.symm)]
            rfl
        · intro j'
          by_cases hj : j' = j
          · subst hj
            right
            show (c.cache.set j' _).getD j' default = _
            rw [getD_set_self _ _ _ hjlen]
            rfl
          · left
            show (c.cache.set j _).getD j' default = _
            rw [getD_set_ne _ _ _ _ (fun e => hj e.symm)]
            rfl
      | none =>
        rw [hf3] at h
        simp only [Option.some_inj, Prod.mk.injEq] at h
        obtain ⟨rfl, rfl⟩ := h
        refine ⟨by simp [List.length_set], rfl, rfl, hlen0, ?_, ?_, ?_, ?_, fun j => Or.inl rfl⟩
        · show ((c.chunks.set i0 _).getD i0 default).active = true
          rw [getD_set_self _ _ _ hlen0]
        · show ((c.chunks.set i0 _).getD i0 default).gridPos = g
          rw [getD_set_self _ _ _ hlen0]
        · intro k hk
          show (c.chunks.set i0 _).getD k default = _
          rw [getD_set_ne _ _ _ _ (fun e => hk e.symm)]
          rfl
        · intro k hk
          by_cases hki : k = i0
          · subst hki
            have hcontra : (getChunk c k).active = false := hinact
            rw [hk] at hcontra
            exact absurd hcontra (by simp)
          · show (c.chunks.set i0 _).getD k default = _
            rw [getD_set_ne _ _ _ _ (fun e => hki e.symm)]
            rfl

end CCanvas

namespace CCanvas

theorem pool_notG_of_findNone (c : Canvas) (g : Int × Int)
    (hf : firstIdx (fun ch => ch.active && Vector2Equals ch.gridPos g) c.chunks = none) :
    ∀ k, k < c.chunks.length → (getChunk c k).active = true → (getChunk c k).gridPos ≠ g := by
  intro k hk hak he
  have hfalse := (firstIdx_eq_none_iff _ _).mp hf k hk
  simp only at hfalse
  rw [getChunk] at hak he
  rw [hak, he, Vector2Equals_self] at hfalse
  exact absurd hfalse (by simp)

theorem cache_notG_of_findNone (c : Canvas) (g : Int × Int)
    (hf : firstIdx (fun s => s.active && Vector2Equals s.gridPos g) c.cache = none) :
    ∀ j, j < c.cache.length → (getCached c j).active = true → (getCached c j).gridPos ≠ g := by
  intro j hj haj he
  have hfalse := (firstIdx_eq_none_iff _ _).mp hf j hj
  simp only at hfalse
  rw [getCached] at haj he
  rw [haj, he, Vector2Equals_self] at hfalse
  exact absurd hfalse (by simp)

@[simp] theorem getChunk_mk (l : List CanvasChunk) (cc : List CachedChunk) (u : UndoState)
    (k : Nat) : getChunk ⟨l, cc, u⟩ k = l.getD k default := rfl

@[simp] theorem getCached_mk (l : List CanvasChunk) (cc : List CachedChunk) (u : UndoState)
    (k : Nat) : getCached ⟨l, cc, u⟩ k = cc.getD k default := rfl

theorem getChunk_def (c : Canvas) (k : Nat) : getChunk c k = c.chunks.getD k default := rfl

theorem getCached_def (c : Canvas) (k : Nat) : getCached c k = c.cache.getD k default := rfl

/-- Activation preserves the uniqueness invariant I1. -/
theorem gac_preserves (c : Canvas) (g : Int × Int) (i : Nat) (c' : Canvas)
    (h : GetAndActivateChunk c g = some (i, c')) (hu : UniqueResidency c) :
    UniqueResidency c' := by
  obtain ⟨hp, hc, hd⟩ := hu
  unfold GetAndActivateChunk at h
  cases hf1 : firstIdx (fun ch => ch.active && Vector2Equals ch.gridPos g) c.chunks with
  | some i0 =>
    rw [hf1] at h
    simp only [Option.some_inj, Prod.mk.injEq] at h
    obtain ⟨rfl, rfl⟩ := h
    exact ⟨hp, hc, hd⟩
  | none =>
    rw [hf1] at h
    have hnog := pool_notG_of_findNone c g hf1
    cases hf2 : firstIdx (fun ch => !ch.active) c.chunks with
    | none => rw [hf2] at h; exact absurd h (by simp)
    | some i0 =>
      rw [hf2] at h
      obtain ⟨hlen0, _, _⟩ := firstIdx_eq_some _ _ _ hf2
      cases hf3 : firstIdx (fun s => s.active && Vector2Equals s.gridPos g) c.cache with
      | some j =>
        rw [hf3] at h
        simp only [Option.some_inj, Prod.mk.injEq] at h
        obtain ⟨rfl, rfl⟩ := h
        obtain ⟨hjlen, hpj, _⟩ := firstIdx_eq_some _ _ _ hf3
        rw [cacheMatch_iff] at hpj
        refine ⟨?_, ?_, ?_⟩
        · -- PoolNodup
          intro k l hk hl hkl hak hal
          simp only [List.length_set] at hk hl
          simp only [getChunk_mk] at hak hal ⊢
          by_cases hki : k = i0
          · subst hki
            rw [getD_set_self _ _ _ hlen0] at hak ⊢
            rw [getD_set_ne _ _ _ _ hkl] at hal ⊢
            exact fun he => hnog l hl hal he.symm
          · by_cases hli : l = i0
            · subst hli
              rw [getD_set_ne _ _ _ _ (fun e => hki e.symm)] at hak ⊢
              rw [getD_set_self _ _ _ hlen0] at hal ⊢
              exact fun he => hnog k hk hak he
            · rw [getD_set_ne _ _ _ _ (fun e => hki e.symm)] at hak ⊢
              rw [getD_set_ne _ _ _ _ (fun e => hli e.symm)] at hal ⊢
              exact hp k l hk hl hkl hak hal
        · -- CacheNodup
          intro k l hk hl hkl hak hal
          simp only [List.length_set] at hk hl
          simp only [getCached_mk] at hak hal ⊢
          by_cases hkj : k = j
          · subst hkj
            rw [getD_set_self _ _ _ hjlen] at hak
            exact absurd hak (by simp)
          · by_cases hlj : l = j
            · subst hlj
              rw [getD_set_self _ _ _ hjlen] at hal
              exact absurd hal (by simp)
            · rw [getD_set_ne _ _ _ _ (fun e => hkj e.symm)] at hak ⊢
              rw [getD_set_ne _ _ _ _ (fun e => hlj e.symm)] at hal ⊢
              exact hc k l hk hl hkl hak hal
        · -- TiersDisjoint
          intro k l hk hl hak hal
          simp only [List.length_set] at hk hl
          simp only [getChunk_mk, getCached_mk] at hak hal ⊢
          by_cases hlj : l = j
          · subst hlj
            rw [getD_set_self _ _ _ hjlen] at hal
            exact absurd hal (by simp)
          · rw [getD_set_ne _ _ _ _ (fun e => hlj e.symm)] at hal ⊢
            by_cases hki : k = i0
            · subst hki
              rw [getD_set_self _ _ _ hlen0]
              intro he
              exact hc l j hl hjlen hlj hal hpj.1 (by rw [getCached_def, getCached_def, ← he, hpj.2])
            · rw [getD_set_ne _ _ _ _ (fun e => hki e.symm)] at hak ⊢
              exact hd k l hk hl hak hal
      | none =>
        rw [hf3] at h
        simp only [Option.some_inj, Prod.mk.injEq] at h
        obtain ⟨rfl, rfl⟩ := h
        have hnocache := cache_notG_of_findNone c g hf3
        refine ⟨?_, hc, ?_⟩
        · intro k l hk hl hkl hak hal
          simp only [List.length_set] at hk hl
          simp only [getChunk_mk] at hak hal ⊢
          by_cases hki : k = i0
          · subst hki
            rw [getD_set_self _ _ _ hlen0] at hak ⊢
            rw [getD_set_ne _ _ _ _ hkl] at hal ⊢
            exact fun he => hnog l hl hal he.symm
          · by_cases hli : l = i0
            · subst hli
              rw [getD_set_ne _ _ _ _ (fun e => hki e.symm)] at hak ⊢
              rw [getD_set_self _ _ _ hlen0] at hal ⊢
              exact fun he => hnog k hk hak he
            · rw [getD_set_ne _ _ _ _ (fun e => hki e.symm)] at hak ⊢
              rw [getD_set_ne _ _ _ _ (fun e => hli e.symm)] at hal ⊢
              exact hp k l hk hl hkl hak hal
        · intro k l hk hl hak hal
          simp only [List.length_set] at hk hl
          simp only [getChunk_mk, getCached_mk] at hak hal ⊢
          by_cases hki : k = i0
          · subst hki
            rw [getD_set_self _ _ _ hlen0]
            exact fun he => hnocache l hl hal he.symm
          · rw [getD_set_ne _ _ _ _ (fun e => hki e.symm)] at hak ⊢
            exact hd k l hk hl hak hal

/-- `activateAt` preserves the uniqueness invariant. -/
theorem activateAt_preserves (c : Canvas) (g : Int × Int) (hu : UniqueResidency c) :
    UniqueResidency (activateAt c g) := by
  unfold activateAt
  cases h : GetAndActivateChunk c g with
  | none => exact hu
  | some p => exact gac_preserves c g p.1 p.2 (by rw [h]) hu

end CCanvas

namespace CCanvas

theorem lt_length_of_chunk_active (c : Canvas) (i : Nat)
    (h : (getChunk c i).active = true) : i < c.chunks.length := by
  by_contra hcon
  rw [getChunk, List.getD_eq_default _ _ (by omega)] at h
  exact absurd h (by simp [default])

theorem lt_length_of_cached_active (c : Canvas) (j : Nat)
    (h : (getCached c j).active = true) : j < c.cache.length := by
  by_contra hcon
  rw [getCached, List.getD_eq_default _ _ (by omega)] at h
  exact absurd h (by simp [default])

theorem cacheInsert_some (cache : List CachedChunk) (g : Int × Int) (img : Img)
    (cache' : List CachedChunk) (h : cacheInsert cache g img = some cache') :
    ∃ j, j < cache.length ∧ (cache.getD j default).active = false ∧
      cache' = cache.set j ⟨img, g, true⟩ := by
  unfold cacheInsert at h
  cases hf : firstIdx (fun s => !s.active) cache with
  | none => rw [hf] at h; exact absurd h (by simp)
  | some j =>
    rw [hf] at h
    obtain ⟨hj, hpj, _⟩ := firstIdx_eq_some _ _ _ hf
    simp only [Option.some_inj] at h
    exact ⟨j, hj, by simpa using hpj, h.symm⟩

theorem cacheInsert_none (cache : List CachedChunk) (g : Int × Int) (img : Img)
    (h : cacheInsert cache g img = none) :
    ∀ j, j < cache.length → (cache.getD j default).active = true := by
  unfold cacheInsert at h
  cases hf : firstIdx (fun s => !s.active) cache with
  | some j => rw [hf] at h; exact absurd h (by simp)
  | none =>
    intro j hj
    have := (firstIdx_eq_none_iff _ _).mp hf j hj
    simpa using this

/-- The eviction step of `Canvas_Update` preserves the uniqueness
invariant. -/
theorem evictStep_preserves (w : Window) (c : Canvas) (losses : List (Int × Int)) (i : Nat)
    (hu : UniqueResidency c) : UniqueResidency (evictStep w (c, losses) i).1 := by
  obtain ⟨hp, hc, hd⟩ := hu
  unfold evictStep
  simp only
  by_cases hcond : ((getChunk c i).active && outOfWindow w (getChunk c i).gridPos) = true
  · rw [if_pos hcond]
    rw [Bool.and_eq_true] at hcond
    obtain ⟨hact, _⟩ := hcond
    have hilen : i < c.chunks.length := lt_length_of_chunk_active c i hact
    by_cases hmod : (getChunk c i).modified = true
    · rw [if_pos hmod]
      cases hins : cacheInsert c.cache (getChunk c i).gridPos (getChunk c i).texture with
      | some cache' =>
        obtain ⟨j, hjlen, hjin, rfl⟩ := cacheInsert_some _ _ _ _ hins
        simp only
        refine ⟨?_, ?_, ?_⟩
        · intro k l hk hl hkl hak hal
          simp only [List.length_set] at hk hl
          simp only [getChunk_mk] at hak hal ⊢
          by_cases hki : k = i
          · subst hki
            rw [getD_set_self _ _ _ hilen] at hak
            exact absurd hak (by simp)
          · by_cases hli : l = i
            · subst hli
              rw [getD_set_self _ _ _ hilen] at hal
              exact absurd hal (by simp)
            · rw [getD_set_ne _ _ _ _ (fun e => hki e.symm)] at hak ⊢
              rw [getD_set_ne _ _ _ _ (fun e => hli e.symm)] at hal ⊢
              exact hp k l hk hl hkl hak hal
        · intro k l hk hl hkl hak hal
          simp only [List.length_set] at hk hl
          simp only [getCached_mk] at hak hal ⊢
          by_cases hkj : k = j
          · subst hkj
            rw [getD_set_self _ _ _ hjlen] at hak ⊢
            rw [getD_set_ne _ _ _ _ hkl] at hal ⊢
            exact fun he => hd i l hilen hl hact hal he
          · by_cases hlj : l = j
            · subst hlj
              rw [getD_set_ne _ _ _ _ (fun e => hkj e.symm)] at hak ⊢
              rw [getD_set_self _ _ _ hjlen] at hal ⊢
              exact fun he => hd i k hilen hk hact hak he.symm
            · rw [getD_set_ne _ _ _ _ (fun e => hkj e.symm)] at hak ⊢
              rw [getD_set_ne _ _ _ _ (fun e => hlj e.symm)] at hal ⊢
              exact hc k l hk hl hkl hak hal
        · intro k l hk hl hak hal
          simp only [List.length_set] at hk hl
          simp only [getChunk_mk, getCached_mk] at hak hal ⊢
          by_cases hki : k = i
          · subst hki
            rw [getD_set_self _ _ _ hilen] at hak
            exact absurd hak (by simp)
          · rw [getD_set_ne _ _ _ _ (fun e => hki e.symm)] at hak ⊢
            by_cases hlj : l = j
            · subst hlj
              rw [getD_set_self _ _ _ hjlen] at hal ⊢
              exact hp k i hk hilen hki hak hact
            · rw [getD_set_ne _ _ _ _ (fun e => hlj e.symm)] at hal ⊢
              exact hd k l hk hl hak hal
      | none =>
        simp only
        refine ⟨?_, hc, ?_⟩
        · intro k l hk hl hkl hak hal
          simp only [List.length_set] at hk hl
          simp only [getChunk_mk] at hak hal ⊢
          by_cases hki : k = i
          · subst hki
            rw [getD_set_self _ _ _ hilen] at hak
            exact absurd hak (by simp)
          · by_cases hli : l = i
            · subst hli
              rw [getD_set_self _ _ _ hilen] at hal
              exact absurd hal (by simp)
            · rw [getD_set_ne _ _ _ _ (fun e => hki e.symm)] at hak ⊢
              rw [getD_set_ne _ _ _ _ (fun e => hli e.symm)] at hal ⊢
              exact hp k l hk hl hkl hak hal
        · intro k l hk hl hak hal
          simp only [List.length_set] at hk hl
          simp only [getChunk_mk, getCached_mk] at hak hal ⊢
          by_cases hki : k = i
          · subst hki
            rw [getD_set_self _ _ _ hilen] at hak
            exact absurd hak (by simp)
          · rw [getD_set_ne _ _ _ _ (fun e => hki e.symm)] at hak ⊢
            exact hd k l hk hl hak hal
    · rw [if_neg hmod]
      simp only
      refine ⟨?_, hc, ?_⟩
      · intro k l hk hl hkl hak hal
        simp only [List.length_set] at hk hl
        simp only [getChunk_mk] at hak hal ⊢
        by_cases hki : k = i
        · subst hki
          rw [getD_set_self _ _ _ hilen] at hak
          exact absurd hak (by simp)
        · by_cases hli : l = i
          · subst hli
            rw [getD_set_self _ _ _ hilen] at hal
            exact absurd hal (by simp)
          · rw [getD_set_ne _ _ _ _ (fun e => hki e.symm)] at hak ⊢
            rw [getD_set_ne _ _ _ _ (fun e => hli e.symm)] at hal ⊢
            exact hp k l hk hl hkl hak hal
      · intro k l hk hl hak hal
        simp only [List.length_set] at hk hl
        simp only [getChunk_mk, getCached_mk] at hak hal ⊢
        by_cases hki : k = i
        · subst hki
          rw [getD_set_self _ _ _ hilen] at hak
          exact absurd hak (by simp)
        · rw [getD_set_ne _ _ _ _ (fun e => hki e.symm)] at hak ⊢
          exact hd k l hk hl hak hal
  · rw [if_neg hcond]
    exact ⟨hp, hc, hd⟩

/-- The eviction loop preserves the uniqueness invariant. -/
theorem evictLoop_preserves (w : Window) (is : List Nat) (c : Canvas)
    (losses : List (Int × Int)) (hu : UniqueResidency c) :
    UniqueResidency (evictLoop w is (c, losses)).1 := by
  induction is generalizing c losses with
  | nil => exact hu
  | cons i rest ih =>
    unfold evictLoop
    have hstep := evictStep_preserves w c losses i hu
    have : evictStep w (c, losses) i = ((evictStep w (c, losses) i).1, (evictStep w (c, losses) i).2) := rfl
    rw [this]
    exact ih _ _ hstep

/-- `Canvas_Update` preserves the uniqueness invariant. -/
theorem canvasUpdate_preserves (c : Canvas) (w : Window) (hu : UniqueResidency c) :
    UniqueResidency (Canvas_Update c w) := by
  unfold Canvas_Update evictPhase
  have h1 := evictLoop_preserves w (List.range c.chunks.length) c [] hu
  generalize hmid : (evictLoop w (List.range c.chunks.length) (c, [])).1 = cmid at h1
  clear hmid
  induction windowCoords w generalizing cmid with
  | nil => exact h1
  | cons g rest ih =>
    simp only [List.foldl_cons]
    exact ih _ (activateAt_preserves cmid g h1)

end CCanvas

namespace CCanvas

/-- Replacing a pool slot's content without changing its `active` flag or
coordinate preserves the uniqueness invariant. -/
theorem inv_set_same_residency (c : Canvas) (i : Nat) (a : CanvasChunk)
    (ha : a.active = (getChunk c i).active) (hg : a.gridPos = (getChunk c i).gridPos)
    (hu : UniqueResidency c) : UniqueResidency { c with chunks := c.chunks.set i a } := by
  obtain ⟨hp, hc, hd⟩ := hu
  by_cases hi : i < c.chunks.length
  case neg =>
    rw [List.set_eq_of_length_le (by omega)]
    exact ⟨hp, hc, hd⟩
  refine ⟨?_, hc, ?_⟩
  · intro k l hk hl hkl hak hal
    simp only [List.length_set] at hk hl
    simp only [getChunk_mk] at hak hal ⊢
    by_cases hki : k = i
    · subst hki
      rw [getD_set_self _ _ _ hi, ha] at hak
      rw [getD_set_self _ _ _ hi, hg]
      rw [getD_set_ne _ _ _ _ hkl] at hal ⊢
      exact hp k l hk hl hkl hak hal
    · by_cases hli : l = i
      · subst hli
        rw [getD_set_self _ _ _ hi, ha] at hal
        rw [getD_set_self _ _ _ hi, hg]
        rw [getD_set_ne _ _ _ _ (fun e => hki e.symm)] at hak ⊢
        exact hp k l hk hl hkl hak hal
      · rw [getD_set_ne _ _ _ _ (fun e => hki e.symm)] at hak ⊢
        rw [getD_set_ne _ _ _ _ (fun e => hli e.symm)] at hal ⊢
        exact hp k l hk hl hkl hak hal
  · intro k l hk hl hak hal
    simp only [List.length_set] at hk hl
    simp only [getChunk_mk, getCached_mk] at hak hal ⊢
    by_cases hki : k = i
    · subst hki
      rw [getD_set_self _ _ _ hi, ha] at hak
      rw [getD_set_self _ _ _ hi, hg]
      exact hd k l hk hl hak hal
    · rw [getD_set_ne _ _ _ _ (fun e => hki e.symm)] at hak ⊢
      exact hd k l hk hl hak hal

/-- A drawing operation preserves the uniqueness invariant. -/
theorem drawOp_preserves (c : Canvas) (g : Int × Int) (img : Img)
    (hu : UniqueResidency c) : UniqueResidency (drawOp c g img) := by
  unfold drawOp
  cases h : GetAndActivateChunk c g with
  | none => exact hu
  | some p =>
    obtain ⟨i, c'⟩ := p
    have hu' := gac_preserves c g i c' h hu
    exact inv_set_same_residency c' i _ rfl rfl hu'

/-- Every record of `savePoolRecs` comes from an active pool slot with the
same coordinate. -/
theorem savePoolRecs_mem (l : List CanvasChunk) (r : (Int × Int) × Img)
    (h : r ∈ savePoolRecs l) :
    ∃ i, i < l.length ∧ (l.getD i default).active = true ∧ (l.getD i default).gridPos = r.1 := by
  induction l with
  | nil => simp [savePoolRecs] at h
  | cons ch rest ih =>
    unfold savePoolRecs at h
    by_cases hcond : (ch.active && ch.modified) = true
    · rw [if_pos hcond] at h
      rw [Bool.and_eq_true] at hcond
      rcases List.mem_cons.mp h with he | hm
      · exact ⟨0, by simp, by simpa using hcond.1, by rw [he, List.getD_cons_zero]⟩
      · obtain ⟨i, hi, hact, hgp⟩ := ih hm
        exact ⟨i + 1, by simp only [List.length_cons]; omega,
          by rwa [List.getD_cons_succ], by rwa [List.getD_cons_succ]⟩
    · rw [if_neg hcond] at h
      obtain ⟨i, hi, hact, hgp⟩ := ih h
      exact ⟨i + 1, by simp only [List.length_cons]; omega,
        by rwa [List.getD_cons_succ], by rwa [List.getD_cons_succ]⟩

/-- Every record of `saveCacheRecs` comes from an active cache slot with
the same coordinate. -/
theorem saveCacheRecs_mem (l : List CachedChunk) (r : (Int × Int) × Img)
    (h : r ∈ saveCacheRecs l) :
    ∃ i, i < l.length ∧ (l.getD i default).active = true ∧ (l.getD i default).gridPos = r.1 := by
  induction l with
  | nil => simp [saveCacheRecs] at h
  | cons s rest ih =>
    unfold saveCacheRecs at h
    by_cases hcond : s.active = true
    · rw [if_pos hcond] at h
      rcases List.mem_cons.mp h with he | hm
      · exact ⟨0, by simp, by simpa using hcond, by rw [he, List.getD_cons_zero]⟩
      · obtain ⟨i, hi, hact, hgp⟩ := ih hm
        exact ⟨i + 1, by simp only [List.length_cons]; omega,
          by rwa [List.getD_cons_succ], by rwa [List.getD_cons_succ]⟩
    · rw [if_neg hcond] at h
      obtain ⟨i, hi, hact, hgp⟩ := ih h
      exact ⟨i + 1, by simp only [List.length_cons]; omega,
        by rwa [List.getD_cons_succ], by rwa [List.getD_cons_succ]⟩

theorem savePoolRecs_pairwise (l : List CanvasChunk)
    (h : ∀ i j, i < l.length → j < l.length → i ≠ j →
      (l.getD i default).active = true → (l.getD j default).active = true →
      (l.getD i default).gridPos ≠ (l.getD j default).gridPos) :
    (savePoolRecs l).Pairwise (fun a b => a.1 ≠ b.1) := by
  induction l with
  | nil => simp [savePoolRecs]
  | cons ch rest ih =>
    have hrest : ∀ i j, i < rest.length → j < rest.length → i ≠ j →
        (rest.getD i default).active = true → (rest.getD j default).active = true →
        (rest.getD i default).gridPos ≠ (rest.getD j default).gridPos := by
      intro i j hi hj hij hai haj
      have := h (i + 1) (j + 1) (by simp only [List.length_cons]; omega)
        (by simp only [List.length_cons]; omega) (by omega)
        (by rwa [List.getD_cons_succ]) (by rwa [List.getD_cons_succ])
      rwa [List.getD_cons_succ, List.getD_cons_succ] at this
    unfold savePoolRecs
    by_cases hcond : (ch.active && ch.modified) = true
    · rw [if_pos hcond]
      rw [Bool.and_eq_true] at hcond
      refine List.Pairwise.cons ?_ (ih hrest)
      intro r hr
      obtain ⟨i, hi, hact, hgp⟩ := savePoolRecs_mem rest r hr
      have := h 0 (i + 1) (by simp) (by simp only [List.length_cons]; omega) (by omega)
        (by rw [List.getD_cons_zero]; exact hcond.1) (by rwa [List.getD_cons_succ])
      rw [List.getD_cons_zero, List.getD_cons_succ, hgp] at this
      exact this
    · rw [if_neg hcond]
      exact ih hrest

theorem saveCacheRecs_pairwise (l : List CachedChunk)
    (h : ∀ i j, i < l.length → j < l.length → i ≠ j →
      (l.getD i default).active = true → (l.getD j default).active = true →
      (l.getD i default).gridPos ≠ (l.getD j default).gridPos) :
    (saveCacheRecs l).Pairwise (fun a b => a.1 ≠ b.1) := by
  induction l with
  | nil => simp [saveCacheRecs]
  | cons s rest ih =>
    have hrest : ∀ i j, i < rest.length → j < rest.length → i ≠ j →
        (rest.getD i default).active = true → (rest.getD j default).active = true →
        (rest.getD i default).gridPos ≠ (rest.getD j default).gridPos := by
      intro i j hi hj hij hai haj
      have := h (i + 1) (j + 1) (by simp only [List.length_cons]; omega)
        (by simp only [List.length_cons]; omega) (by omega)
        (by rwa [List.getD_cons_succ]) (by rwa [List.getD_cons_succ])
      rwa [List.getD_cons_succ, List.getD_cons_succ] at this
    unfold saveCacheRecs
    by_cases hcond : s.active = true
    · rw [if_pos hcond]
      refine List.Pairwise.cons ?_ (ih hrest)
      intro r hr
      obtain ⟨i, hi, hact, hgp⟩ := saveCacheRecs_mem rest r hr
      have := h 0 (i + 1) (by simp) (by simp only [List.length_cons]; omega) (by omega)
        (by rw [List.getD_cons_zero]; exact hcond) (by rwa [List.getD_cons_succ])
      rw [List.getD_cons_zero, List.getD_cons_succ, hgp] at this
      exact this
    · rw [if_neg hcond]
      exact ih hrest

/-- Under the uniqueness invariant, the records `Canvas_Save` emits carry
pairwise-distinct grid coordinates. -/
theorem saveRecords_pairwise (c : Canvas) (hu : UniqueResidency c) :
    (Canvas_Save_records c).Pairwise (fun a b => a.1 ≠ b.1) := by
  obtain ⟨hp, hc, hd⟩ := hu
  unfold Canvas_Save_records
  rw [List.pairwise_append]
  refine ⟨savePoolRecs_pairwise c.chunks hp, saveCacheRecs_pairwise c.cache hc, ?_⟩
  intro a ha b hb
  obtain ⟨i, hi, hact, hgp⟩ := savePoolRecs_mem c.chunks a ha
  obtain ⟨j, hj, hact', hgp'⟩ := saveCacheRecs_mem c.cache b hb
  have := hd i j hi hj hact hact'
  rw [getChunk_def, getCached_def, hgp, hgp'] at this
  exact this

theorem length_fillCache (cache : List CachedChunk) (recs : List ((Int × Int) × Img)) :
    (fillCache cache recs).length = cache.length := by
  induction cache generalizing recs with
  | nil =>
    cases recs with
    | nil => rfl
    | cons r rs => obtain ⟨g, img⟩ := r; rfl
  | cons s slots ih =>
    cases recs with
    | nil => rfl
    | cons r rs =>
      obtain ⟨g, img⟩ := r
      simp only [fillCache, List.length_cons, ih]

theorem fillCache_getD (cache : List CachedChunk) (recs : List ((Int × Int) × Img)) (k : Nat) :
    (fillCache cache recs).getD k default =
      if k < recs.length ∧ k < cache.length
      then ⟨(recs.getD k default).2, (recs.getD k default).1, true⟩
      else cache.getD k default := by
  induction cache generalizing recs k with
  | nil =>
    rw [if_neg (by simp)]
    cases recs with
    | nil => rfl
    | cons r rs => obtain ⟨g, img⟩ := r; rfl
  | cons s slots ih =>
    cases recs with
    | nil =>
      rw [if_neg (by simp)]
      rfl
    | cons r rs =>
      obtain ⟨g, img⟩ := r
      cases k with
      | zero =>
        rw [if_pos (by constructor <;> simp)]
        rfl
      | succ m =>
        show (fillCache slots rs).getD m default = _
        rw [ih rs m]
        by_cases hcond : m < rs.length ∧ m < slots.length
        · rw [if_pos hcond, if_pos (by simp only [List.length_cons]; omega)]
          rw [List.getD_cons_succ]
        · rw [if_neg hcond, if_neg (by simp only [List.length_cons]; omega)]
          rw [List.getD_cons_succ]

theorem clearState_chunk_inactive (c : Canvas) (i : Nat) :
    (getChunk (clearState c) i).active = false := by
  unfold clearState
  by_cases hi : i < c.chunks.length
  · rw [getChunk_mk, getD_map_active _ _ _ hi]
  · rw [getChunk_mk, List.getD_eq_default _ _ (by simp only [List.length_map]; omega)]
    rfl

theorem clearState_cached_inactive (c : Canvas) (j : Nat) :
    (getCached (clearState c) j).active = false := by
  unfold clearState
  by_cases hj : j < c.cache.length
  · rw [getCached_mk, getD_map_active _ _ _ hj]
  · rw [getCached_mk, List.getD_eq_default _ _ (by simp only [List.length_map]; omega)]
    rfl

/-- A record-level load of a stream with pairwise-distinct coordinates
re-establishes the uniqueness invariant. -/
theorem canvasLoadRecords_preserves (c : Canvas) (recs : List ((Int × Int) × Img))
    (hrec : recs.Pairwise (fun a b => a.1 ≠ b.1)) :
    UniqueResidency (Canvas_Load_records c recs) := by
  have hrec' : (recs.take c.cache.length).Pairwise (fun a b => a.1 ≠ b.1) :=
    hrec.sublist (List.take_sublist _ _)
  unfold Canvas_Load_records
  simp only
  refine ⟨?_, ?_, ?_⟩
  · intro k l hk hl hkl hak hal
    have := clearState_chunk_inactive c k
    rw [getChunk_def] at this
    rw [getChunk_mk] at hak
    rw [show (clearState c).chunks.getD k default = getChunk (clearState c) k from rfl] at hak
    rw [clearState_chunk_inactive c k] at hak
    exact absurd hak (by simp)
  · intro k l hk hl hkl hak hal
    rw [getCached_mk, fillCache_getD] at hak hal
    by_cases hkc : k < (recs.take c.cache.length).length ∧ k < (clearState c).cache.length
    · by_cases hlc : l < (recs.take c.cache.length).length ∧ l < (clearState c).cache.length
      · rw [getCached_mk, fillCache_getD, if_pos hkc]
        rw [getCached_mk, fillCache_getD, if_pos hlc]
        have hpw := List.pairwise_iff_getElem.mp hrec'
        simp only
        rcases Nat.lt_or_ge k l with hlt | hge
        · have := hpw k l hkc.1 hlc.1 hlt
          rw [List.getD_eq_getElem _ _ hkc.1, List.getD_eq_getElem _ _ hlc.1]
          exact this
        · have hlt : l < k := by omega
          have := hpw l k hlc.1 hkc.1 hlt
          rw [List.getD_eq_getElem _ _ hkc.1, List.getD_eq_getElem _ _ hlc.1]
          exact fun he => this he.symm
      · rw [if_neg hlc] at hal
        rw [show (clearState c).cache.getD l default = getCached (clearState c) l from rfl] at hal
        rw [clearState_cached_inactive c l] at hal
        exact absurd hal (by simp)
    · rw [if_neg hkc] at hak
      rw [show (clearState c).cache.getD k default = getCached (clearState c) k from rfl] at hak
      rw [clearState_cached_inactive c k] at hak
      exact absurd hak (by simp)
  · intro k l hk hl hak hal
    rw [getChunk_mk] at hak
    rw [show (clearState c).chunks.getD k default = getChunk (clearState c) k from rfl] at hak
    rw [clearState_chunk_inactive c k] at hak
    exact absurd hak (by simp)

theorem stepOp_preserves (s : Sys) (op : Op) (h : SysInv s) : SysInv (stepOp s op) := by
  obtain ⟨hu, hf⟩ := h
  cases op with
  | activate g => exact ⟨activateAt_preserves s.canvas g hu, hf⟩
  | draw g img => exact ⟨drawOp_preserves s.canvas g img hu, hf⟩
  | sweep w => exact ⟨canvasUpdate_preserves s.canvas w hu, hf⟩
  | save n =>
    refine ⟨hu, ?_⟩
    intro m recs hm
    simp only [stepOp] at hm
    by_cases hmn : m = n
    · rw [if_pos hmn] at hm
      obtain rfl : Canvas_Save_records s.canvas = recs := by simpa using hm
      exact saveRecords_pairwise s.canvas hu
    · rw [if_neg hmn] at hm
      exact hf m recs hm
  | load n =>
    simp only [stepOp]
    cases hfile : s.files n with
    | none => exact ⟨hu, hf⟩
    | some recs =>
      exact ⟨canvasLoadRecords_preserves s.canvas recs (hf n recs hfile), hf⟩

theorem canvasCreate_inv : UniqueResidency Canvas_Create := by
  refine ⟨?_, ?_, ?_⟩
  · intro k l hk hl hkl hak hal
    rw [show getChunk Canvas_Create k = (Canvas_Create.chunks).getD k default from rfl] at hak
    unfold Canvas_Create at hak
    rw [getD_replicate] at hak
    by_cases hkn : k < (CHUNK_POOL_RADIUS * 2 + 1) * (CHUNK_POOL_RADIUS * 2 + 1)
    · rw [if_pos hkn] at hak
      exact absurd hak (by simp [default])
    · rw [if_neg hkn] at hak
      exact absurd hak (by simp [default])
  · intro k l hk hl hkl hak hal
    rw [show getCached Canvas_Create k = (Canvas_Create.cache).getD k default from rfl] at hak
    unfold Canvas_Create at hak
    rw [getD_replicate] at hak
    by_cases hkn : k < MAX_CACHED_CHUNKS
    · rw [if_pos hkn] at hak
      exact absurd hak (by simp [default])
    · rw [if_neg hkn] at hak
      exact absurd hak (by simp [default])
  · intro k l hk hl hak hal
    rw [show getChunk Canvas_Create k = (Canvas_Create.chunks).getD k default from rfl] at hak
    unfold Canvas_Create at hak
    rw [getD_replicate] at hak
    by_cases hkn : k < (CHUNK_POOL_RADIUS * 2 + 1) * (CHUNK_POOL_RADIUS * 2 + 1)
    · rw [if_pos hkn] at hak
      exact absurd hak (by simp [default])
    · rw [if_neg hkn] at hak
      exact absurd hak (by simp [default])

theorem runOps_inv (ops : List Op) : SysInv (runOps ops) := by
  unfold runOps
  have hinit : SysInv ⟨Canvas_Create, fun _ => none⟩ :=
    ⟨canvasCreate_inv, fun n recs h => absurd h (by simp)⟩
  generalize hs : (⟨Canvas_Create, fun _ => none⟩ : Sys) = s at hinit
  clear hs
  induction ops generalizing s with
  | nil => exact hinit
  | cons op rest ih =>
    simp only [List.foldl_cons]
    exact ih _ (stepOp_preserves s op hinit)

end CCanvas

namespace CCanvas

theorem cacheInsert_of_full (cache : List CachedChunk) (g : Int × Int) (img : Img)
    (hfull : ∀ j, j < cache.length → (cache.getD j default).active = true) :
    cacheInsert cache g img = none := by
  unfold cacheInsert
  have hnone : firstIdx (fun s => !s.active) cache = none := by
    refine (firstIdx_eq_none_iff _ _).mpr (fun j hj => ?_)
    show (!(cache.getD j default).active) = false
    rw [hfull j hj]
    rfl
  rw [hnone]

/-- One eviction step under a fully occupied cache: the cache is never
mutated, the chunk (if active and out of the window) is deactivated, and a
modified evictee's coordinate is appended to the loss report. -/
theorem evictStep_full (w : Window) (c : Canvas) (losses : List (Int × Int)) (i : Nat)
    (hfull : ∀ j, j < c.cache.length → (getCached c j).active = true) :
    (evictStep w (c, losses) i).1.cache = c.cache ∧
    (evictStep w (c, losses) i).1.chunks.length = c.chunks.length ∧
    (∀ k, getChunk (evictStep w (c, losses) i).1 k =
      if k = i ∧ (getChunk c i).active = true ∧ outOfWindow w (getChunk c i).gridPos = true
      then { getChunk c i with active := false } else getChunk c k) ∧
    ((evictStep w (c, losses) i).2 =
      if (getChunk c i).active = true ∧ outOfWindow w (getChunk c i).gridPos = true ∧
          (getChunk c i).modified = true
      then losses ++ [(getChunk c i).gridPos] else losses) := by
  unfold evictStep
  simp only
  by_cases hcond : ((getChunk c i).active && outOfWindow w (getChunk c i).gridPos) = true
  · rw [if_pos hcond]
    rw [Bool.and_eq_true] at hcond
    obtain ⟨hact, hout⟩ := hcond
    have hilen : i < c.chunks.length := lt_length_of_chunk_active c i hact
    by_cases hmod : (getChunk c i).modified = true
    · rw [if_pos hmod]
      rw [cacheInsert_of_full c.cache _ _ (fun j hj => hfull j hj)]
      simp only
      refine ⟨by trivial, by simp [List.length_set], ?_, ?_⟩
      · intro k
        rw [getChunk_mk]
        by_cases hki : k = i
        · subst hki
          have hcc : k = k ∧ (getChunk c k).active = true ∧
              outOfWindow w (getChunk c k).gridPos = true := ⟨rfl, hact, hout⟩
          rw [if_pos hcc, getD_set_self _ _ _ hilen]
        · rw [if_neg (fun hcon => hki hcon.1), getD_set_ne _ _ _ _ (fun e => hki e.symm)]
          rfl
      · rw [if_pos ⟨hact, hout, hmod⟩]
    · rw [if_neg hmod]
      simp only
      refine ⟨by trivial, by simp [List.length_set], ?_, ?_⟩
      · intro k
        rw [getChunk_mk]
        by_cases hki : k = i
        · subst hki
          have hcc : k = k ∧ (getChunk c k).active = true ∧
              outOfWindow w (getChunk c k).gridPos = true := ⟨rfl, hact, hout⟩
          rw [if_pos hcc, getD_set_self _ _ _ hilen]
        · rw [if_neg (fun hcon => hki hcon.1), getD_set_ne _ _ _ _ (fun e => hki e.symm)]
          rfl
      · rw [if_neg (fun hcon => hmod hcon.2.2)]
  · rw [if_neg hcond]
    rw [Bool.and_eq_true] at hcond
    refine ⟨rfl, rfl, ?_, ?_⟩
    · intro k
      rw [if_neg (fun hcon => hcond ⟨hcon.2.1, hcon.2.2⟩)]
    · rw [if_neg (fun hcon => hcond ⟨hcon.1, hcon.2.1⟩)]

/-- The whole eviction loop under a fully occupied cache. -/
theorem evictLoop_full (w : Window) (is : List Nat) (c : Canvas) (losses : List (Int × Int))
    (hfull : ∀ j, j < c.cache.length → (getCached c j).active = true) :
    (evictLoop w is (c, losses)).1.cache = c.cache ∧
    (evictLoop w is (c, losses)).1.chunks.length = c.chunks.length ∧
    (∀ k, getChunk (evictLoop w is (c, losses)).1 k =
      if k ∈ is ∧ (getChunk c k).active = true ∧ outOfWindow w (getChunk c k).gridPos = true
      then { getChunk c k with active := false } else getChunk c k) ∧
    (∀ x, x ∈ losses → x ∈ (evictLoop w is (c, losses)).2) ∧
    (∀ k, k ∈ is → (getChunk c k).active = true → outOfWindow w (getChunk c k).gridPos = true →
      (getChunk c k).modified = true → (getChunk c k).gridPos ∈ (evictLoop w is (c, losses)).2) := by
  induction is generalizing c losses with
  | nil =>
    refine ⟨rfl, rfl, ?_, fun x hx => hx, ?_⟩
    · intro k
      rw [if_neg (fun hcon => by simpa using hcon.1)]
      rfl
    · intro k hk
      simp at hk
  | cons i rest ih =>
    show _ ∧ _ ∧ _ ∧ _ ∧ _
    obtain ⟨hsc, hsl, hsk, hsL⟩ := evictStep_full w c losses i hfull
    have heta : evictStep w (c, losses) i =
        ((evictStep w (c, losses) i).1, (evictStep w (c, losses) i).2) := rfl
    have hloop : evictLoop w (i :: rest) (c, losses) =
        evictLoop w rest ((evictStep w (c, losses) i).1, (evictStep w (c, losses) i).2) := by
      rw [← heta]; rfl
    have hfull1 : ∀ j, j < (evictStep w (c, losses) i).1.cache.length →
        (getCached (evictStep w (c, losses) i).1 j).active = true := by
      intro j hj
      rw [hsc] at hj
      rw [getCached_def, hsc]
      exact hfull j hj
    obtain ⟨ic, il, ik, imono, iL⟩ := ih (evictStep w (c, losses) i).1
      (evictStep w (c, losses) i).2 hfull1
    rw [hloop]
    refine ⟨by rw [ic, hsc], by rw [il, hsl], ?_, ?_, ?_⟩
    · intro k
      rw [ik k]
      by_cases hki : k = i
      · subst hki
        by_cases hfire : (getChunk c k).active = true ∧ outOfWindow w (getChunk c k).gridPos = true
        · have hck : getChunk (evictStep w (c, losses) k).1 k =
              { getChunk c k with active := false } := by
            rw [hsk k, if_pos ⟨rfl, hfire.1, hfire.2⟩]
          rw [if_neg (fun hcon => by rw [hck] at hcon; exact absurd hcon.2.1 (by simp)), hck,
            if_pos ⟨List.mem_cons_self k rest, hfire.1, hfire.2⟩]
        · have hck : getChunk (evictStep w (c, losses) k).1 k = getChunk c k := by
            rw [hsk k, if_neg (fun hcon => hfire ⟨hcon.2.1, hcon.2.2⟩)]
          rw [hck, if_neg (fun hcon => hfire ⟨hcon.2.1, hcon.2.2⟩),
            if_neg (fun hcon => hfire ⟨hcon.2.1, hcon.2.2⟩)]
      · have hck : getChunk (evictStep w (c, losses) i).1 k = getChunk c k := by
          rw [hsk k, if_neg (fun hcon => hki hcon.1)]
        rw [hck]
        by_cases hcond : k ∈ rest ∧ (getChunk c k).active = true ∧
            outOfWindow w (getChunk c k).gridPos = true
        · rw [if_pos hcond, if_pos ⟨List.mem_cons_of_mem i hcond.1, hcond.2.1, hcond.2.2⟩]
        · rw [if_neg hcond, if_neg (fun hcon => hcond ⟨?_, hcon.2.1, hcon.2.2⟩)]
          rcases List.mem_cons.mp hcon.1 with he | hm
          · exact absurd he hki
          · exact hm
    · intro x hx
      refine imono x ?_
      rw [hsL]
      by_cases hcond : (getChunk c i).active = true ∧
          outOfWindow w (getChunk c i).gridPos = true ∧ (getChunk c i).modified = true
      · rw [if_pos hcond]; exact List.mem_append_left _ hx
      · rw [if_neg hcond]; exact hx
    · intro k hk hact hout hmod
      by_cases hki : k = i
      · subst hki
        refine imono _ ?_
        rw [hsL, if_pos ⟨hact, hout, hmod⟩]
        exact List.mem_append_right _ (List.mem_singleton.mpr rfl)
      · have hkrest : k ∈ rest := by
          rcases List.mem_cons.mp hk with he | hm
          · exact absurd he hki
          · exact hm
        have hck : getChunk (evictStep w (c, losses) i).1 k = getChunk c k := by
          rw [hsk k, if_neg (fun hcon => hki hcon.1)]
        have := iL k hkrest (by rwa [hck]) (by rwa [hck]) (by rwa [hck])
        rwa [hck] at this

end CCanvas

namespace CCanvas

theorem gac_resident (c : Canvas) (g : Int × Int) (h : isResident c g = true) :
    ∃ i, GetAndActivateChunk c g = some (i, c) ∧ i < c.chunks.length ∧
      (getChunk c i).active = true ∧ (getChunk c i).gridPos = g := by
  unfold isResident at h
  cases hf : firstIdx (fun ch => ch.active && Vector2Equals ch.gridPos g) c.chunks with
  | none => rw [hf] at h; exact absurd h (by simp)
  | some i =>
    obtain ⟨hi, hp, _⟩ := firstIdx_eq_some _ _ _ hf
    rw [poolMatch_iff] at hp
    refine ⟨i, ?_, hi, hp.1, hp.2⟩
    unfold GetAndActivateChunk
    rw [hf]

theorem firstIdx_congr {α β : Type} [Inhabited α] [Inhabited β]
    (p : α → Bool) (q : β → Bool) (l : List α) (l' : List β)
    (hlen : l.length = l'.length)
    (h : ∀ k, k < l.length → p (l.getD k default) = q (l'.getD k default)) :
    firstIdx p l = firstIdx q l' := by
  induction l generalizing l' with
  | nil =>
    cases l' with
    | nil => rfl
    | cons b bs => simp at hlen
  | cons a as ih =>
    cases l' with
    | nil => simp at hlen
    | cons b bs =>
      have h0 := h 0 (by simp)
      rw [List.getD_cons_zero, List.getD_cons_zero] at h0
      show (if p a then some 0 else (firstIdx p as).map (· + 1)) =
        (if q b then some 0 else (firstIdx q bs).map (· + 1))
      rw [h0]
      by_cases hb : q b = true
      · rw [if_pos hb, if_pos hb]
      · rw [if_neg hb, if_neg hb]
        rw [ih bs (by simpa using hlen) ?_]
        intro k hk
        have := h (k + 1) (by simp only [List.length_cons]; omega)
        rwa [List.getD_cons_succ, List.getD_cons_succ] at this

/-- Residency only depends on the `active` flags and coordinates of the
pool slots. -/
theorem isResident_congr (c c' : Canvas) (g : Int × Int)
    (hlen : c'.chunks.length = c.chunks.length)
    (h : ∀ k, k < c.chunks.length →
      (getChunk c' k).active = (getChunk c k).active ∧
      (getChunk c' k).gridPos = (getChunk c k).gridPos) :
    isResident c' g = isResident c g := by
  unfold isResident
  rw [firstIdx_congr _ _ c'.chunks c.chunks hlen ?_]
  intro k hk
  rw [hlen] at hk
  obtain ⟨ha, hg⟩ := h k hk
  show ((c'.chunks.getD k default).active && _) = ((c.chunks.getD k default).active && _)
  rw [show (c'.chunks.getD k default).active = (getChunk c' k).active from rfl,
    show (c.chunks.getD k default).active = (getChunk c k).active from rfl, ha,
    show (c'.chunks.getD k default).gridPos = (getChunk c' k).gridPos from rfl,
    show (c.chunks.getD k default).gridPos = (getChunk c k).gridPos from rfl, hg]

/-- The mirror-capture loop succeeds without mutating the canvas when every
recorded coordinate is resident, and each captured state carries the
current content of the chunk that holds its coordinate. -/
theorem captureStates_resident (c : Canvas) (gs : List (Int × Int))
    (hres : ∀ g ∈ gs, isResident c g = true) :
    ∃ l, captureStates c gs = some (l, c) ∧
      l.map (·.gridPos) = gs ∧
      ∀ st ∈ l, ∃ i, i < c.chunks.length ∧ (getChunk c i).active = true ∧
        (getChunk c i).gridPos = st.gridPos ∧ st.beforeImage = (getChunk c i).texture := by
  induction gs with
  | nil => exact ⟨[], rfl, rfl, by simp⟩
  | cons g rest ih =>
    obtain ⟨i, hgac, hi, hact, hgp⟩ := gac_resident c g (hres g (List.mem_cons_self g rest))
    obtain ⟨l, hcap, hmap, hprop⟩ := ih (fun g' hg' => hres g' (List.mem_cons_of_mem g hg'))
    refine ⟨{ beforeImage := (getChunk c i).texture, gridPos := g } :: l, ?_, ?_, ?_⟩
    · show captureStates c (g :: rest) = _
      unfold captureStates
      simp only [hgac, hcap]
    · simp only [List.map_cons, hmap]
    · intro st hst
      rcases List.mem_cons.mp hst with he | hm
      · exact ⟨i, hi, hact, by rw [he, hgp], by rw [he]⟩
      · exact hprop st hm

/-- `ApplyUndoAction` on an action whose coordinates are all resident and
pairwise distinct: every recorded before-snapshot is written onto an active
slot holding its coordinate, `modified` is set, and the cache, the undo
state, the slot count and every slot's residency data are untouched. -/
theorem applyLoop_resident (sts : List UndoChunkState) (c : Canvas)
    (hres : ∀ st ∈ sts, isResident c st.gridPos = true)
    (hnd : (sts.map (·.gridPos)).Nodup) :
    (ApplyUndoAction c ⟨sts⟩).undoState = c.undoState ∧
    (ApplyUndoAction c ⟨sts⟩).cache = c.cache ∧
    (ApplyUndoAction c ⟨sts⟩).chunks.length = c.chunks.length ∧
    (∀ k, k < c.chunks.length →
      (getChunk (ApplyUndoAction c ⟨sts⟩) k).active = (getChunk c k).active ∧
      (getChunk (ApplyUndoAction c ⟨sts⟩) k).gridPos = (getChunk c k).gridPos) ∧
    (∀ st ∈ sts, ∃ i, i < c.chunks.length ∧
      (getChunk (ApplyUndoAction c ⟨sts⟩) i).active = true ∧
      (getChunk (ApplyUndoAction c ⟨sts⟩) i).gridPos = st.gridPos ∧
      (getChunk (ApplyUndoAction c ⟨sts⟩) i).texture = st.beforeImage ∧
      (getChunk (ApplyUndoAction c ⟨sts⟩) i).modified = true) ∧
    (∀ k, k < c.chunks.length → (getChunk c k).gridPos ∉ sts.map (·.gridPos) →
      getChunk (ApplyUndoAction c ⟨sts⟩) k = getChunk c k) := by
  induction sts generalizing c with
  | nil =>
    exact ⟨rfl, rfl, rfl, fun k _ => ⟨rfl, rfl⟩, by simp, fun k _ _ => rfl⟩
  | cons st rest ih =>
    obtain ⟨i0, hgac, hi0, hact0, hgp0⟩ :=
      gac_resident c st.gridPos (hres st (List.mem_cons_self st rest))
    set c1 : Canvas :=
      { c with
        chunks := c.chunks.set i0
          { getChunk c i0 with texture := st.beforeImage, modified := true } } with hc1
    have happ : ApplyUndoAction c ⟨st :: rest⟩ = ApplyUndoAction c1 ⟨rest⟩ := by
      unfold ApplyUndoAction
      simp only
      rw [List.foldl_cons]
      simp only [hgac]
    have hc1len : c1.chunks.length = c.chunks.length := by
      rw [hc1]; simp [List.length_set]
    have hc1point : ∀ k, k < c.chunks.length →
        (getChunk c1 k).active = (getChunk c k).active ∧
        (getChunk c1 k).gridPos = (getChunk c k).gridPos := by
      intro k hk
      rw [hc1]
      by_cases hki : k = i0
      · subst hki
        rw [getChunk_mk, getD_set_self _ _ _ hi0]
        exact ⟨rfl, rfl⟩
      · rw [getChunk_mk, getD_set_ne _ _ _ _ (fun e => hki e.symm)]
        exact ⟨rfl, rfl⟩
    have hc1slot : (getChunk c1 i0).active = true ∧ (getChunk c1 i0).gridPos = st.gridPos ∧
        (getChunk c1 i0).texture = st.beforeImage ∧ (getChunk c1 i0).modified = true := by
      rw [hc1, getChunk_mk, getD_set_self _ _ _ hi0]
      exact ⟨hact0, hgp0, rfl, rfl⟩
    have hc1other : ∀ k, k ≠ i0 → getChunk c1 k = getChunk c k := by
      intro k hk
      rw [hc1, getChunk_mk, getD_set_ne _ _ _ _ (fun e => hk e.symm)]
      rfl
    have hresrest : ∀ st' ∈ rest, isResident c1 st'.gridPos = true := by
      intro st' hst'
      rw [isResident_congr c c1 st'.gridPos hc1len hc1point]
      exact hres st' (List.mem_cons_of_mem st hst')
    have hndrest : (rest.map (·.gridPos)).Nodup := by
      rw [List.map_cons] at hnd
      exact hnd.tail
    have hheadnotin : st.gridPos ∉ rest.map (·.gridPos) := by
      rw [List.map_cons] at hnd
      exact (List.nodup_cons.mp hnd).1
    obtain ⟨iu, icache, ilen, ipoint, islot, iother⟩ := ih c1 hresrest hndrest
    rw [happ]
    refine ⟨by rw [iu, hc1], by rw [icache, hc1], by rw [ilen, hc1len], ?_, ?_, ?_⟩
    · intro k hk
      obtain ⟨ha, hg⟩ := ipoint k (by omega)
      obtain ⟨ha', hg'⟩ := hc1point k hk
      exact ⟨by rw [ha, ha'], by rw [hg, hg']⟩
    · intro st' hst'
      rcases List.mem_cons.mp hst' with he | hm
      · subst he
        refine ⟨i0, hi0, ?_⟩
        have hkeep : getChunk (ApplyUndoAction c1 ⟨rest⟩) i0 = getChunk c1 i0 := by
          refine iother i0 (by omega) ?_
          rw [hc1slot.2.1]
          exact hheadnotin
        rw [hkeep]
        exact ⟨hc1slot.1, hc1slot.2.1, hc1slot.2.2.1, hc1slot.2.2.2⟩
      · obtain ⟨i, hi, hprops⟩ := islot st' hm
        exact ⟨i, by omega, hprops⟩
    · intro k hk hnot
      have hknot : (getChunk c k).gridPos ≠ st.gridPos := by
        intro he
        apply hnot
        rw [List.map_cons, he]
        exact List.mem_cons_self _ _
      have hki : k ≠ i0 := by
        intro he
        subst he
        exact hknot hgp0
      have h1 : getChunk c1 k = getChunk c k := hc1other k hki
      have h2 : getChunk (ApplyUndoAction c1 ⟨rest⟩) k = getChunk c1 k := by
        refine iother k (by omega) ?_
        rw [h1]
        intro hmem
        apply hnot
        rw [List.map_cons]
        exact List.mem_cons_of_mem _ hmem
      rw [h2, h1]

end CCanvas

namespace CCanvas

/-- Full characterisation of `Undo_PerformUndo` when every coordinate of
the popped action is resident and the action's coordinates are distinct:
the call succeeds, the top action is popped, a mirror action capturing the
pre-undo chunk contents is built, the stored before-snapshots are applied
with `modified` set, and the mirror is pushed onto the redo stack exactly
when that stack has room (it is discarded when the stack is full). -/
theorem performUndo_resident (c : Canvas) (A : UndoAction)
    (hA : c.undoState.undoStack.getLast? = some A)
    (hres : ∀ st ∈ A.chunkStates, isResident c st.gridPos = true)
    (hnd : (A.chunkStates.map (·.gridPos)).Nodup) :
    ∃ c' mirror,
      Undo_PerformUndo c = some c' ∧
      mirror.map (·.gridPos) = A.chunkStates.map (·.gridPos) ∧
      (∀ st ∈ mirror, ∃ i, i < c.chunks.length ∧ (getChunk c i).active = true ∧
        (getChunk c i).gridPos = st.gridPos ∧ st.beforeImage = (getChunk c i).texture) ∧
      (∀ st ∈ A.chunkStates, ∃ i, i < c.chunks.length ∧
        (getChunk c' i).active = true ∧ (getChunk c' i).gridPos = st.gridPos ∧
        (getChunk c' i).texture = st.beforeImage ∧ (getChunk c' i).modified = true) ∧
      c'.undoState.undoStack = c.undoState.undoStack.dropLast ∧
      (c.undoState.redoStack.length < MAX_UNDO_ACTIONS →
        c'.undoState.redoStack = c.undoState.redoStack ++ [⟨mirror⟩]) ∧
      (MAX_UNDO_ACTIONS ≤ c.undoState.redoStack.length →
        c'.undoState.redoStack = c.undoState.redoStack) := by
  set c1 : Canvas :=
    { c with undoState := { c.undoState with undoStack := c.undoState.undoStack.dropLast } }
    with hc1
  have hres1 : ∀ st ∈ A.chunkStates, isResident c1 st.gridPos = true := hres
  have hresg : ∀ g ∈ A.chunkStates.map (·.gridPos), isResident c1 g = true := by
    intro g hg
    obtain ⟨st, hst, rfl⟩ := List.mem_map.mp hg
    exact hres1 st hst
  obtain ⟨mirror, hcap, hmap, hmirprop⟩ :=
    captureStates_resident c1 (A.chunkStates.map (·.gridPos)) hresg
  obtain ⟨iu, icache, ilen, ipoint, islot, iother⟩ := applyLoop_resident A.chunkStates c1 hres1 hnd
  have iu' : (ApplyUndoAction c1 A).undoState = c1.undoState := iu
  have hredo : (ApplyUndoAction c1 A).undoState.redoStack = c.undoState.redoStack := by
    rw [iu']
  have hundoStack : (ApplyUndoAction c1 A).undoState.undoStack =
      c.undoState.undoStack.dropLast := by
    rw [iu']
  have hundo : Undo_PerformUndo c =
      (if (ApplyUndoAction c1 A).undoState.redoStack.length < MAX_UNDO_ACTIONS then
        some { ApplyUndoAction c1 A with
          undoState := { (ApplyUndoAction c1 A).undoState with
            redoStack := (ApplyUndoAction c1 A).undoState.redoStack ++ [⟨mirror⟩] } }
      else some (ApplyUndoAction c1 A)) := by
    unfold Undo_PerformUndo
    rw [hA, ← hc1]
    simp only [hcap]
  by_cases hlt : (ApplyUndoAction c1 A).undoState.redoStack.length < MAX_UNDO_ACTIONS
  · refine ⟨_, mirror, by rw [hundo, if_pos hlt], hmap, hmirprop, ?_, ?_, ?_, ?_⟩
    · intro st hst
      obtain ⟨i, hi, hprops⟩ := islot st hst
      exact ⟨i, hi, hprops⟩
    · show (ApplyUndoAction c1 A).undoState.undoStack = c.undoState.undoStack.dropLast
      exact hundoStack
    · intro _
      show (ApplyUndoAction c1 A).undoState.redoStack ++ [⟨mirror⟩] =
        c.undoState.redoStack ++ [⟨mirror⟩]
      rw [hredo]
    · intro hge
      rw [hredo] at hlt
      omega
  · refine ⟨_, mirror, by rw [hundo, if_neg hlt], hmap, hmirprop, ?_, hundoStack, ?_, ?_⟩
    · intro st hst
      obtain ⟨i, hi, hprops⟩ := islot st hst
      exact ⟨i, hi, hprops⟩
    · intro hltc
      rw [hredo] at hlt
      omega
    · intro _
      exact hredo

end CCanvas

namespace CCanvas

/-- Redo succeeds whenever every coordinate of the popped redo action is
resident (the mirror-capture dereference cannot hit `NULL`). -/
theorem performRedo_isSome_of_resident (c : Canvas) (A : UndoAction)
    (hA : c.undoState.redoStack.getLast? = some A)
    (hres : ∀ st ∈ A.chunkStates, isResident c st.gridPos = true) :
    (Undo_PerformRedo c).isSome = true := by
  set c1 : Canvas :=
    { c with undoState := { c.undoState with redoStack := c.undoState.redoStack.dropLast } }
    with hc1
  have hres1 : ∀ st ∈ A.chunkStates, isResident c1 st.gridPos = true := hres
  have hresg : ∀ g ∈ A.chunkStates.map (·.gridPos), isResident c1 g = true := by
    intro g hg
    obtain ⟨st, hst, rfl⟩ := List.mem_map.mp hg
    exact hres1 st hst
  obtain ⟨mirror, hcap, _, _⟩ :=
    captureStates_resident c1 (A.chunkStates.map (·.gridPos)) hresg
  unfold Undo_PerformRedo
  rw [hA, ← hc1]
  simp only [hcap]
  by_cases hlt : (ApplyUndoAction c1 A).undoState.undoStack.length < MAX_UNDO_ACTIONS
  · rw [if_pos hlt]; rfl
  · rw [if_neg hlt]; rfl

/-- Undo succeeds whenever every coordinate of the popped undo action is
resident. -/
theorem performUndo_isSome_of_resident (c : Canvas) (A : UndoAction)
    (hA : c.undoState.undoStack.getLast? = some A)
    (hres : ∀ st ∈ A.chunkStates, isResident c st.gridPos = true) :
    (Undo_PerformUndo c).isSome = true := by
  set c1 : Canvas :=
    { c with undoState := { c.undoState with undoStack := c.undoState.undoStack.dropLast } }
    with hc1
  have hres1 : ∀ st ∈ A.chunkStates, isResident c1 st.gridPos = true := hres
  have hresg : ∀ g ∈ A.chunkStates.map (·.gridPos), isResident c1 g = true := by
    intro g hg
    obtain ⟨st, hst, rfl⟩ := List.mem_map.mp hg
    exact hres1 st hst
  obtain ⟨mirror, hcap, _, _⟩ :=
    captureStates_resident c1 (A.chunkStates.map (·.gridPos)) hresg
  unfold Undo_PerformUndo
  rw [hA, ← hc1]
  simp only [hcap]
  by_cases hlt : (ApplyUndoAction c1 A).undoState.redoStack.length < MAX_UNDO_ACTIONS
  · rw [if_pos hlt]; rfl
  · rw [if_neg hlt]; rfl

/-- C1: Uniqueness of residency — for every sequence of activate, draw,
sweep-evict, save and load operations starting from a fresh canvas, every
grid coordinate is held by at most one slot across the Active Pool and the
Chunk Cache: never in both tiers at once and never twice within one tier. -/
theorem claim1_unique_residency (ops : List Op) :
    UniqueResidency (runOps ops).canvas :=
  (runOps_inv ops).1

/-- C2: Cache-full data-loss contract — when a modified active chunk lies
outside the padded window and every cache slot is occupied, the cache
insert fails, the whole eviction pass leaves the cache unchanged, the
coordinate is reported as data loss, the chunk is nonetheless evicted, and
the sweep continues over every other out-of-window chunk. -/
theorem claim2_cacheFull_dataLoss (c : Canvas) (w : Window) (i : Nat)
    (hact : (getChunk c i).active = true)
    (hmod : (getChunk c i).modified = true)
    (hout : outOfWindow w (getChunk c i).gridPos = true)
    (hfull : ∀ j, j < c.cache.length → (getCached c j).active = true) :
    cacheInsert c.cache (getChunk c i).gridPos (getChunk c i).texture = none ∧
    (evictPhase w c).1.cache = c.cache ∧
    (getChunk c i).gridPos ∈ (evictPhase w c).2 ∧
    (getChunk (evictPhase w c).1 i).active = false ∧
    (∀ k, (getChunk c k).active = true → outOfWindow w (getChunk c k).gridPos = true →
      (getChunk (evictPhase w c).1 k).active = false) := by
  have hilen := lt_length_of_chunk_active c i hact
  obtain ⟨hcache, hlen, hk, hmono, hloss⟩ :=
    evictLoop_full w (List.range c.chunks.length) c [] hfull
  refine ⟨cacheInsert_of_full _ _ _ hfull, hcache, ?_, ?_, ?_⟩
  · exact hloss i (List.mem_range.mpr hilen) hact hout hmod
  · have hki := hk i
    have hcc : i ∈ List.range c.chunks.length ∧ (getChunk c i).active = true ∧
        outOfWindow w (getChunk c i).gridPos = true :=
      ⟨List.mem_range.mpr hilen, hact, hout⟩
    rw [if_pos hcc] at hki
    show (getChunk (evictLoop w (List.range c.chunks.length) (c, [])).1 i).active = false
    rw [hki]
  · intro k hka hko
    have hki := hk k
    have hcc : k ∈ List.range c.chunks.length ∧ (getChunk c k).active = true ∧
        outOfWindow w (getChunk c k).gridPos = true :=
      ⟨List.mem_range.mpr (lt_length_of_chunk_active c k hka), hka, hko⟩
    rw [if_pos hcc] at hki
    show (getChunk (evictLoop w (List.range c.chunks.length) (c, [])).1 k).active = false
    rw [hki]

theorem claim2_witness :
    (evictPhase w2Window c2Canvas).1.cache = c2Canvas.cache ∧
    (getChunk c2Canvas 0).gridPos ∈ (evictPhase w2Window c2Canvas).2 ∧
    (getChunk (evictPhase w2Window c2Canvas).1 0).active = false := by
  have h := claim2_cacheFull_dataLoss c2Canvas w2Window 0 (by decide) (by decide)
    (by decide) (by decide)
  exact ⟨h.2.1, h.2.2.1, h.2.2.2.1⟩

/-- C3: Hydration marks modified — activating a non-resident coordinate
with a free pool slot returns an active chunk at that coordinate whose
`modified` flag is `true` exactly when the coordinate was found in the
cache; when the coordinate is absent from the cache the chunk comes back
blank with `modified = false`. -/
theorem claim3_hydration_marks_modified (c : Canvas) (g : Int × Int)
    (hnr : ∀ i, i < c.chunks.length → (getChunk c i).active = true →
      (getChunk c i).gridPos ≠ g)
    (hfree : ∃ i, i < c.chunks.length ∧ (getChunk c i).active = false) :
    ∃ i c', GetAndActivateChunk c g = some (i, c') ∧
      (getChunk c' i).active = true ∧ (getChunk c' i).gridPos = g ∧
      ((∃ j, j < c.cache.length ∧ (getCached c j).active = true ∧
          (getCached c j).gridPos = g) →
        (getChunk c' i).modified = true) ∧
      ((∀ j, j < c.cache.length → (getCached c j).active = true →
          (getCached c j).gridPos ≠ g) →
        (getChunk c' i).modified = false ∧ (getChunk c' i).texture = blankImg) := by
  have hf1 : firstIdx (fun ch => ch.active && Vector2Equals ch.gridPos g) c.chunks = none := by
    refine (firstIdx_eq_none_iff _ _).mpr (fun k hk => ?_)
    show ((c.chunks.getD k default).active && Vector2Equals (c.chunks.getD k default).gridPos g)
      = false
    cases hact : (c.chunks.getD k default).active with
    | false => rfl
    | true =>
      have hne := hnr k hk hact
      rw [getChunk_def] at hne
      cases hv : Vector2Equals (c.chunks.getD k default).gridPos g with
      | false => rfl
      | true => exact absurd ((Vector2Equals_iff _ _).mp hv) hne
  obtain ⟨i0, hf2⟩ : ∃ i0, firstIdx (fun ch => !ch.active) c.chunks = some i0 := by
    refine firstIdx_isSome_of_exists _ _ ?_
    obtain ⟨i, hi, hia⟩ := hfree
    refine ⟨i, hi, ?_⟩
    show (!(c.chunks.getD i default).active) = true
    rw [getChunk_def] at hia
    rw [hia]
    rfl
  obtain ⟨hi0len, _, _⟩ := firstIdx_eq_some _ _ _ hf2
  cases hf3 : firstIdx (fun s => s.active && Vector2Equals s.gridPos g) c.cache with
  | some j =>
    obtain ⟨hjlen, hpj, _⟩ := firstIdx_eq_some _ _ _ hf3
    rw [cacheMatch_iff] at hpj
    have heq : GetAndActivateChunk c g = some (i0,
        { c with
          chunks := c.chunks.set i0
            { texture := (c.cache.getD j default).image, gridPos := g,
              active := true, modified := true }
          cache := c.cache.set j { c.cache.getD j default with active := false } }) := by
      unfold GetAndActivateChunk
      rw [hf1, hf2, hf3]
    refine ⟨i0, _, heq, ?_, ?_, ?_, ?_⟩
    · rw [getChunk_mk, getD_set_self _ _ _ hi0len]
    · rw [getChunk_mk, getD_set_self _ _ _ hi0len]
    · intro _
      rw [getChunk_mk, getD_set_self _ _ _ hi0len]
    · intro hnone
      exact absurd (hpj.2) (hnone j hjlen (by rw [getCached_def]; exact hpj.1))
  | none =>
    have hnocache := cache_notG_of_findNone c g hf3
    have heq : GetAndActivateChunk c g = some (i0,
        { c with
          chunks := c.chunks.set i0
            { texture := blankImg, gridPos := g, active := true, modified := false } }) := by
      unfold GetAndActivateChunk
      rw [hf1, hf2, hf3]
    refine ⟨i0, _, heq, ?_, ?_, ?_, ?_⟩
    · rw [getChunk_mk, getD_set_self _ _ _ hi0len]
    · rw [getChunk_mk, getD_set_self _ _ _ hi0len]
    · intro hsome
      obtain ⟨j, hj, haj, hgj⟩ := hsome
      exact absurd hgj (hnocache j hj haj)
    · intro _
      rw [getChunk_mk, getD_set_self _ _ _ hi0len]
      exact ⟨rfl, rfl⟩

theorem claim3_witness :
    ∃ i c', GetAndActivateChunk c3Canvas (2, 3) = some (i, c') ∧
      (getChunk c' i).active = true ∧ (getChunk c' i).gridPos = (2, 3) ∧
      ((∃ j, j < c3Canvas.cache.length ∧ (getCached c3Canvas j).active = true ∧
          (getCached c3Canvas j).gridPos = (2, 3)) →
        (getChunk c' i).modified = true) ∧
      ((∀ j, j < c3Canvas.cache.length → (getCached c3Canvas j).active = true →
          (getCached c3Canvas j).gridPos ≠ (2, 3)) →
        (getChunk c' i).modified = false ∧ (getChunk c' i).texture = blankImg) :=
  claim3_hydration_marks_modified c3Canvas (2, 3) (by decide) ⟨0, by decide, rfl⟩

/-- C4: `Undo_EndAction` postcondition — an open action that captured zero
chunks is discarded with nothing pushed (and nothing else changed);
otherwise it is pushed, dropping the oldest stack entry first when the
stack already holds `MAX_UNDO_ACTIONS` actions so exactly that many are
retained, and the redo stack is cleared in full whenever a push happens. -/
theorem claim4_endAction_spec (u : UndoState) (a : UndoAction)
    (h : u.currentAction = some a) :
    (a.chunkStates = [] → Undo_EndAction u = { u with currentAction := none }) ∧
    (a.chunkStates ≠ [] →
      (Undo_EndAction u).redoStack = [] ∧
      (Undo_EndAction u).currentAction = none ∧
      (u.undoStack.length < MAX_UNDO_ACTIONS →
        (Undo_EndAction u).undoStack = u.undoStack ++ [a]) ∧
      (u.undoStack.length = MAX_UNDO_ACTIONS →
        (Undo_EndAction u).undoStack = u.undoStack.tail ++ [a] ∧
        (Undo_EndAction u).undoStack.length = MAX_UNDO_ACTIONS)) := by
  have hM : MAX_UNDO_ACTIONS = 100 := rfl
  unfold Undo_EndAction
  simp only [h]
  constructor
  · intro hae
    rw [if_pos (by rw [hae]; rfl)]
  · intro hae
    have hae0 : ¬(a.chunkStates.length = 0) := fun e => hae (List.length_eq_zero.mp e)
    rw [if_neg hae0]
    by_cases hcap : MAX_UNDO_ACTIONS ≤ u.undoStack.length
    · rw [if_pos hcap]
      refine ⟨rfl, rfl, fun hlt => absurd hlt (by omega), fun heq => ⟨rfl, ?_⟩⟩
      show (u.undoStack.tail ++ [a]).length = MAX_UNDO_ACTIONS
      rw [List.length_append, List.length_tail, heq]
      simp only [List.length_singleton]
      omega
    · rw [if_neg hcap]
      exact ⟨rfl, rfl, fun _ => rfl, fun heq => absurd heq (by omega)⟩

theorem claim4_witness :
    (Undo_EndAction u4State).redoStack = [] ∧
    (Undo_EndAction u4State).undoStack.length = MAX_UNDO_ACTIONS ∧
    (Undo_EndAction u4State).undoStack =
      u4State.undoStack.tail ++ [⟨[⟨[2], (1, 1)⟩]⟩] := by
  have h := (claim4_endAction_spec u4State ⟨[⟨[2], (1, 1)⟩]⟩ rfl).2 (by decide)
  have h2 := h.2.2.2 (by decide)
  exact ⟨h.1, h2.2, h2.1⟩

/-- C5 counterexample: with a full redo stack, `Undo_PerformUndo` leaves
the redo stack exactly as it was — the freshly captured mirror action is
discarded — whereas the claim requires the oldest redo entry to be dropped
and the mirror pushed. -/
theorem claim5_counterexample :
    (Undo_PerformUndo c5Canvas).map (fun c' => c'.undoState.redoStack) =
      some (List.replicate MAX_UNDO_ACTIONS ⟨[⟨[1], (9, 9)⟩]⟩) ∧
    List.replicate MAX_UNDO_ACTIONS (⟨[⟨[1], (9, 9)⟩]⟩ : UndoAction) ≠
      (List.replicate MAX_UNDO_ACTIONS (⟨[⟨[1], (9, 9)⟩]⟩ : UndoAction)).tail ++
        [⟨[⟨[7], (0, 0)⟩]⟩] := by
  constructor
  · rfl
  · decide

/-- C5 as amended: undo is a no-op on an empty stack (shown separately by
`Undo_PerformUndo`'s first equation); otherwise it pops the top action `A`,
builds a mirror action capturing each recorded chunk's current content,
applies `A`'s before-snapshots marking each chunk modified, and pushes the
mirror onto the redo stack only when that stack has room — on a full redo
stack the mirror is released and discarded, not exchanged for the oldest
entry.  Stated for actions whose coordinates are resident and distinct. -/
theorem claim5_undo_semantics (c : Canvas) (A : UndoAction)
    (hA : c.undoState.undoStack.getLast? = some A)
    (hres : ∀ st ∈ A.chunkStates, isResident c st.gridPos = true)
    (hnd : (A.chunkStates.map (·.gridPos)).Nodup) :
    (∀ cEmpty : Canvas, cEmpty.undoState.undoStack = [] →
      Undo_PerformUndo cEmpty = some cEmpty) ∧
    ∃ c' mirror,
      Undo_PerformUndo c = some c' ∧
      mirror.map (·.gridPos) = A.chunkStates.map (·.gridPos) ∧
      (∀ st ∈ mirror, ∃ i, i < c.chunks.length ∧ (getChunk c i).active = true ∧
        (getChunk c i).gridPos = st.gridPos ∧ st.beforeImage = (getChunk c i).texture) ∧
      (∀ st ∈ A.chunkStates, ∃ i, i < c.chunks.length ∧
        (getChunk c' i).active = true ∧ (getChunk c' i).gridPos = st.gridPos ∧
        (getChunk c' i).texture = st.beforeImage ∧ (getChunk c' i).modified = true) ∧
      c'.undoState.undoStack = c.undoState.undoStack.dropLast ∧
      (c.undoState.redoStack.length < MAX_UNDO_ACTIONS →
        c'.undoState.redoStack = c.undoState.redoStack ++ [⟨mirror⟩]) ∧
      (MAX_UNDO_ACTIONS ≤ c.undoState.redoStack.length →
        c'.undoState.redoStack = c.undoState.redoStack) := by
  refine ⟨?_, performUndo_resident c A hA hres hnd⟩
  intro cEmpty hEmpty
  unfold Undo_PerformUndo
  rw [hEmpty]
  rfl

theorem claim5_witness :
    (∀ cEmpty : Canvas, cEmpty.undoState.undoStack = [] →
      Undo_PerformUndo cEmpty = some cEmpty) ∧
    ∃ c' mirror,
      Undo_PerformUndo c5Canvas = some c' ∧
      mirror.map (·.gridPos) =
        (⟨[⟨[5], (0, 0)⟩]⟩ : UndoAction).chunkStates.map (·.gridPos) ∧
      (∀ st ∈ mirror, ∃ i, i < c5Canvas.chunks.length ∧
        (getChunk c5Canvas i).active = true ∧
        (getChunk c5Canvas i).gridPos = st.gridPos ∧
        st.beforeImage = (getChunk c5Canvas i).texture) ∧
      (∀ st ∈ (⟨[⟨[5], (0, 0)⟩]⟩ : UndoAction).chunkStates,
        ∃ i, i < c5Canvas.chunks.length ∧
        (getChunk c' i).active = true ∧ (getChunk c' i).gridPos = st.gridPos ∧
        (getChunk c' i).texture = st.beforeImage ∧ (getChunk c' i).modified = true) ∧
      c'.undoState.undoStack = c5Canvas.undoState.undoStack.dropLast ∧
      (c5Canvas.undoState.redoStack.length < MAX_UNDO_ACTIONS →
        c'.undoState.redoStack = c5Canvas.undoState.redoStack ++ [⟨mirror⟩]) ∧
      (MAX_UNDO_ACTIONS ≤ c5Canvas.undoState.redoStack.length →
        c'.undoState.redoStack = c5Canvas.undoState.redoStack) :=
  claim5_undo_semantics c5Canvas ⟨[⟨[5], (0, 0)⟩]⟩ rfl (by decide) (by decide)

/-- C9: the mirror-capture loops of `Undo_PerformUndo` and
`Undo_PerformRedo` dereference the activation result unconditionally, so
they are `NULL`-safe exactly when activation cannot fail there: whenever
every recorded coordinate of the popped action is resident both calls
succeed; the snapshot-application path `ApplyUndoAction` does check for
failure and skips the chunk; and there is a reachable-shaped saturated
state (`crashCanvas`) on which the unchecked dereference is reached —
modelled as `Undo_PerformUndo` returning `none`. -/
theorem claim9_null_dereference (c : Canvas) (A : UndoAction) :
    (c.undoState.undoStack.getLast? = some A →
      (∀ st ∈ A.chunkStates, isResident c st.gridPos = true) →
      (Undo_PerformUndo c).isSome = true) ∧
    (c.undoState.redoStack.getLast? = some A →
      (∀ st ∈ A.chunkStates, isResident c st.gridPos = true) →
      (Undo_PerformRedo c).isSome = true) ∧
    (∀ st : UndoChunkState, GetAndActivateChunk c st.gridPos = none →
      ApplyUndoAction c ⟨[st]⟩ = c) ∧
    Undo_PerformUndo crashCanvas = none := by
  refine ⟨fun hA hres => performUndo_isSome_of_resident c A hA hres,
    fun hA hres => performRedo_isSome_of_resident c A hA hres, ?_, ?_⟩
  · intro st hfail
    unfold ApplyUndoAction
    simp only [List.foldl_cons, List.foldl_nil, hfail]
  · rfl

theorem claim9_witness :
    (Undo_PerformUndo c5Canvas).isSome = true ∧
    ApplyUndoAction crashCanvas ⟨[⟨[], (0, 0)⟩]⟩ = crashCanvas := by
  have h := claim9_null_dereference c5Canvas ⟨[⟨[5], (0, 0)⟩]⟩
  have h2 := claim9_null_dereference crashCanvas ⟨[⟨[], (0, 0)⟩]⟩
  exact ⟨h.1 rfl (by decide), h2.2.2.1 ⟨[], (0, 0)⟩ (by decide)⟩

end CCanvas

namespace CCanvas

theorem readU32_u32le (n : Nat) (rest : List Nat) (h : n < 2 ^ 32) :
    readU32 (u32le n ++ rest) = some (n, rest) := by
  show some (leNat (n % 256) (n / 256 % 256) (n / 65536 % 256) (n / 16777216 % 256), rest)
    = some (n, rest)
  have he : leNat (n % 256) (n / 256 % 256) (n / 65536 % 256) (n / 16777216 % 256) = n := by
    unfold leNat
    omega
  rw [he]

theorem floorLog2Aux_bounds (fuel n : Nat) (h1 : 1 ≤ n) (h2 : n ≤ fuel) :
    2 ^ floorLog2Aux fuel n ≤ n ∧ n < 2 ^ (floorLog2Aux fuel n + 1) := by
  induction fuel generalizing n with
  | zero => omega
  | succ f ih =>
    unfold floorLog2Aux
    by_cases hle1 : n ≤ 1
    · rw [if_pos hle1]
      constructor
      · simpa using h1
      · have : (2 : Nat) ^ (0 + 1) = 2 := by norm_num
        omega
    · rw [if_neg hle1]
      have hrec := ih (n / 2) (by omega) (by omega)
      constructor
      · calc (2 : Nat) ^ (floorLog2Aux f (n / 2) + 1)
            = 2 ^ floorLog2Aux f (n / 2) * 2 := by rw [pow_succ]
        _ ≤ (n / 2) * 2 := Nat.mul_le_mul_right _ hrec.1
        _ ≤ n := by omega
      · have hx := hrec.2
        have hp : (2 : Nat) ^ (floorLog2Aux f (n / 2) + 1 + 1) =
            2 ^ (floorLog2Aux f (n / 2) + 1) * 2 := by rw [pow_succ]
        omega

theorem floorLog2_le (n : Nat) (h : n ≠ 0) : 2 ^ floorLog2 n ≤ n :=
  (floorLog2Aux_bounds n n (by omega) (le_refl n)).1

theorem lt_floorLog2_succ (n : Nat) (h : n ≠ 0) : n < 2 ^ (floorLog2 n + 1) :=
  (floorLog2Aux_bounds n n (by omega) (le_refl n)).2

/-- The bit pattern of an integer-valued float in the exactly-representable
range fits in 32 bits. -/
theorem f32bitsOfInt_lt (n : Int) (h : n.natAbs < 2 ^ 24) : f32bitsOfInt n < 2 ^ 32 := by
  unfold f32bitsOfInt
  by_cases hn0 : n = 0
  · rw [if_pos hn0]
    decide
  · rw [if_neg hn0]
    have ha0 : n.natAbs ≠ 0 := fun e => hn0 (Int.natAbs_eq_zero.mp e)
    have hle : 2 ^ floorLog2 n.natAbs ≤ n.natAbs := floorLog2_le _ ha0
    have hlt : n.natAbs < 2 ^ (floorLog2 n.natAbs + 1) := lt_floorLog2_succ _ ha0
    set a := n.natAbs with ha
    set e := floorLog2 a with he
    have he23 : e ≤ 23 := by
      by_contra hgt
      have h24 : (2 : Nat) ^ 24 ≤ 2 ^ e := Nat.pow_le_pow_right (by norm_num) (by omega)
      omega
    have hd : (2 : Nat) ^ 23 = 2 ^ (23 - e) * 2 ^ e := by
      rw [← pow_add]
      congr 1
      omega
    have hdiv : a * 2 ^ 23 / 2 ^ e = a * 2 ^ (23 - e) := by
      rw [hd, ← mul_assoc, Nat.mul_div_cancel _ (Nat.two_pow_pos e)]
    have hMl : (2 : Nat) ^ 23 ≤ a * 2 ^ (23 - e) := by
      calc (2 : Nat) ^ 23 = 2 ^ (23 - e) * 2 ^ e := hd
      _ = 2 ^ e * 2 ^ (23 - e) := by ring
      _ ≤ a * 2 ^ (23 - e) := Nat.mul_le_mul_right _ hle
    have hMu : a * 2 ^ (23 - e) < 2 ^ 24 := by
      calc a * 2 ^ (23 - e) < 2 ^ (e + 1) * 2 ^ (23 - e) :=
            (Nat.mul_lt_mul_right (Nat.two_pow_pos _)).mpr hlt
      _ = 2 ^ 24 := by rw [← pow_add]; congr 1; omega
    rw [hdiv]
    set M := a * 2 ^ (23 - e)
    by_cases hneg : n < 0
    · rw [if_pos hneg]
      omega
    · rw [if_neg hneg]
      omega

/-- Decoding the encoded bit pattern of an integer-valued float in the
exact range recovers the integer: the persisted `Vector2` coordinates
round-trip through save and load. -/
theorem intOfF32bits_f32bitsOfInt (n : Int) (h : n.natAbs < 2 ^ 24) :
    intOfF32bits (f32bitsOfInt n) = n := by
  by_cases hn0 : n = 0
  · subst hn0
    decide
  · unfold f32bitsOfInt
    rw [if_neg hn0]
    have ha0 : n.natAbs ≠ 0 := fun e => hn0 (Int.natAbs_eq_zero.mp e)
    have hle : 2 ^ floorLog2 n.natAbs ≤ n.natAbs := floorLog2_le _ ha0
    have hlt : n.natAbs < 2 ^ (floorLog2 n.natAbs + 1) := lt_floorLog2_succ _ ha0
    set a := n.natAbs with ha
    set e := floorLog2 a with he
    have he23 : e ≤ 23 := by
      by_contra hgt
      have h24 : (2 : Nat) ^ 24 ≤ 2 ^ e := Nat.pow_le_pow_right (by norm_num) (by omega)
      omega
    have hd : (2 : Nat) ^ 23 = 2 ^ (23 - e) * 2 ^ e := by
      rw [← pow_add]
      congr 1
      omega
    have hdiv : a * 2 ^ 23 / 2 ^ e = a * 2 ^ (23 - e) := by
      rw [hd, ← mul_assoc, Nat.mul_div_cancel _ (Nat.two_pow_pos e)]
    have hMl : (2 : Nat) ^ 23 ≤ a * 2 ^ (23 - e) := by
      calc (2 : Nat) ^ 23 = 2 ^ (23 - e) * 2 ^ e := hd
      _ = 2 ^ e * 2 ^ (23 - e) := by ring
      _ ≤ a * 2 ^ (23 - e) := Nat.mul_le_mul_right _ hle
    have hMu : a * 2 ^ (23 - e) < 2 ^ 24 := by
      calc a * 2 ^ (23 - e) < 2 ^ (e + 1) * 2 ^ (23 - e) :=
            (Nat.mul_lt_mul_right (Nat.two_pow_pos _)).mpr hlt
      _ = 2 ^ 24 := by rw [← pow_add]; congr 1; omega
    have hMdiv : a * 2 ^ (23 - e) / 2 ^ (23 - e) = a :=
      Nat.mul_div_cancel _ (Nat.two_pow_pos _)
    rw [hdiv]
    set M := a * 2 ^ (23 - e) with hM
    by_cases hneg : n < 0
    · rw [if_pos hneg]
      unfold intOfF32bits
      have hexp : (2 ^ 31 + (e + 127) * 2 ^ 23 + (M - 2 ^ 23)) / 2 ^ 23 % 256 = e + 127 := by
        omega
      have hsign : (2 ^ 31 + (e + 127) * 2 ^ 23 + (M - 2 ^ 23)) / 2 ^ 31 % 2 = 1 := by
        omega
      have hmant : (2 ^ 31 + (e + 127) * 2 ^ 23 + (M - 2 ^ 23)) % 2 ^ 23 = M - 2 ^ 23 := by
        omega
      rw [hexp, hsign, hmant]
      rw [if_neg (by omega)]
      have h2 : 2 ^ 23 + (M - 2 ^ 23) = M := by omega
      rw [h2]
      by_cases h23 : e = 23
      · rw [if_pos (by omega)]
        rw [if_pos rfl]
        have hM1 : M = a := by
          rw [hM, h23]
          norm_num
        have hE0 : e + 127 - 150 = 0 := by omega
        rw [hE0, hM1]
        have : a * 2 ^ 0 = a := by norm_num
        rw [this]
        omega
      · rw [if_neg (by omega)]
        rw [if_pos rfl]
        have hDexp : 150 - (e + 127) = 23 - e := by omega
        rw [hDexp, hMdiv]
        omega
    · rw [if_neg hneg]
      unfold intOfF32bits
      have hexp : (0 + (e + 127) * 2 ^ 23 + (M - 2 ^ 23)) / 2 ^ 23 % 256 = e + 127 := by
        omega
      have hsign : (0 + (e + 127) * 2 ^ 23 + (M - 2 ^ 23)) / 2 ^ 31 % 2 = 0 := by
        omega
      have hmant : (0 + (e + 127) * 2 ^ 23 + (M - 2 ^ 23)) % 2 ^ 23 = M - 2 ^ 23 := by
        omega
      rw [hexp, hsign, hmant]
      rw [if_neg (by omega)]
      have h2 : 2 ^ 23 + (M - 2 ^ 23) = M := by omega
      rw [h2]
      by_cases h23 : e = 23
      · rw [if_pos (by omega)]
        rw [if_neg (by omega)]
        have hM1 : M = a := by
          rw [hM, h23]
          norm_num
        have hE0 : e + 127 - 150 = 0 := by omega
        rw [hE0, hM1]
        have : a * 2 ^ 0 = a := by norm_num
        rw [this]
        omega
      · rw [if_neg (by omega)]
        rw [if_neg (by omega)]
        have hDexp : 150 - (e + 127) = 23 - e := by omega
        rw [hDexp, hMdiv]
        omega

end CCanvas

namespace CCanvas

theorem getD_append_lt {α : Type} (l l' : List α) (i : Nat) (d : α) (h : i < l.length) :
    (l ++ l').getD i d = l.getD i d := by
  induction l generalizing i with
  | nil => simp at h
  | cons a as ih =>
    cases i with
    | zero => rfl
    | succ k =>
      show (as ++ l').getD k d = as.getD k d
      exact ih k (by simp only [List.length_cons] at h; omega)

theorem getD_append_length {α : Type} [Inhabited α] (l l' : List α) :
    (l ++ l').getD l.length default = l'.getD 0 default := by
  induction l with
  | nil => rfl
  | cons a as ih => simpa using ih

theorem loadRecords_nil_stream (fuel : Nat) : loadRecords [] fuel = [] := by
  cases fuel with
  | zero => rfl
  | succ f => rfl

theorem leNat_u32le (n : Nat) (h : n < 2 ^ 32) :
    leNat (n % 256) (n / 256 % 256) (n / 65536 % 256) (n / 16777216 % 256) = n := by
  unfold leNat
  omega

theorem readGridPos_of_length (s : List Nat) (h : 8 ≤ s.length) :
    readGridPos s = some
      ((intOfF32bits (leNat (s.getD 0 0) (s.getD 1 0) (s.getD 2 0) (s.getD 3 0)),
        intOfF32bits (leNat (s.getD 4 0) (s.getD 5 0) (s.getD 6 0) (s.getD 7 0))),
       s.drop 8) := by
  obtain _ | ⟨b0, s⟩ := s
  · simp at h
  obtain _ | ⟨b1, s⟩ := s
  · simp only [List.length_cons, List.length_nil] at h; omega
  obtain _ | ⟨b2, s⟩ := s
  · simp only [List.length_cons, List.length_nil] at h; omega
  obtain _ | ⟨b3, s⟩ := s
  · simp only [List.length_cons, List.length_nil] at h; omega
  obtain _ | ⟨b4, s⟩ := s
  · simp only [List.length_cons, List.length_nil] at h; omega
  obtain _ | ⟨b5, s⟩ := s
  · simp only [List.length_cons, List.length_nil] at h; omega
  obtain _ | ⟨b6, s⟩ := s
  · simp only [List.length_cons, List.length_nil] at h; omega
  obtain _ | ⟨b7, s⟩ := s
  · simp only [List.length_cons, List.length_nil] at h; omega
  rfl

/-- Parsing the two stored floats of a record's coordinate recovers the
grid coordinate exactly (the program only stores exactly-representable
integers). -/
theorem readGridPos_f32 (x y : Int) (rest : List Nat)
    (hx : x.natAbs < 2 ^ 24) (hy : y.natAbs < 2 ^ 24) :
    readGridPos (f32le x ++ (f32le y ++ rest)) = some ((x, y), rest) := by
  show some
      ((intOfF32bits (leNat (f32bitsOfInt x % 256) (f32bitsOfInt x / 256 % 256)
          (f32bitsOfInt x / 65536 % 256) (f32bitsOfInt x / 16777216 % 256)),
        intOfF32bits (leNat (f32bitsOfInt y % 256) (f32bitsOfInt y / 256 % 256)
          (f32bitsOfInt y / 65536 % 256) (f32bitsOfInt y / 16777216 % 256))), rest)
    = some ((x, y), rest)
  rw [leNat_u32le _ (f32bitsOfInt_lt x hx), leNat_u32le _ (f32bitsOfInt_lt y hy),
    intOfF32bits_f32bitsOfInt x hx, intOfF32bits_f32bitsOfInt y hy]

theorem readPixels_exact (img rest : List Nat) (h : img.length = PIXEL_BYTES) :
    readPixels (img ++ rest) = (img, rest) := by
  have h1 : (img ++ rest).take PIXEL_BYTES = img := by
    rw [List.take_append_eq_append_take, List.take_of_length_le (le_of_eq h), h]
    simp
  have h2 : (img ++ rest).drop PIXEL_BYTES = rest := by
    rw [List.drop_append_eq_append_drop, List.drop_eq_nil_of_le (le_of_eq h), h]
    simp
  unfold readPixels
  rw [h1, h2]

/-- The record loop of `Canvas_Load` parses back exactly the record list
that `Canvas_Save` serialised, when the coordinates are exactly
representable, every payload is the full `PIXEL_BYTES` (as the program
always writes), and the loop has fuel for every record. -/
theorem loadRecords_encode (recs : List ((Int × Int) × Img)) (fuel : Nat)
    (hb : ∀ r ∈ recs, r.1.1.natAbs < 2 ^ 24 ∧ r.1.2.natAbs < 2 ^ 24)
    (hlen : ∀ r ∈ recs, r.2.length = PIXEL_BYTES)
    (hfuel : recs.length ≤ fuel) :
    loadRecords (recs.flatMap encodeRecord) fuel = recs := by
  induction recs generalizing fuel with
  | nil =>
    rw [List.flatMap_nil]
    exact loadRecords_nil_stream fuel
  | cons r rs ih =>
    cases fuel with
    | zero => simp only [List.length_cons] at hfuel; omega
    | succ f =>
      obtain ⟨⟨x, y⟩, img⟩ := r
      rw [List.flatMap_cons]
      have hassoc : encodeRecord ((x, y), img) ++ rs.flatMap encodeRecord =
          f32le x ++ (f32le y ++ (img ++ rs.flatMap encodeRecord)) := by
        show (f32le x ++ (f32le y ++ img)) ++ rs.flatMap encodeRecord = _
        rw [List.append_assoc, List.append_assoc]
      rw [hassoc]
      have hxy := hb ((x, y), img) (List.mem_cons_self _ _)
      have himg := hlen ((x, y), img) (List.mem_cons_self _ _)
      have hread := readGridPos_f32 x y (img ++ rs.flatMap encodeRecord) hxy.1 hxy.2
      unfold loadRecords
      simp only [hread]
      have hpix := readPixels_exact img (rs.flatMap encodeRecord) himg
      simp only [hpix]
      rw [ih f (fun r hr => hb r (List.mem_cons_of_mem _ hr))
        (fun r hr => hlen r (List.mem_cons_of_mem _ hr))
        (by simp only [List.length_cons] at hfuel; omega)]

theorem loadRecords_succ (s : List Nat) (fuel : Nat) :
    loadRecords s (fuel + 1) =
      match readGridPos s with
      | none => []
      | some (g, rest) => (g, (readPixels rest).1) :: loadRecords (readPixels rest).2 fuel := rfl

/-- The record loop skips over `m` complete records (any byte content) of a
prefix, continuing on the remainder with `m` fewer slots of fuel. -/
theorem loadRecords_skip (m : Nat) (pre rest : List Nat) (fuel : Nat)
    (hpre : pre.length = m * (8 + PIXEL_BYTES)) (hf : m ≤ fuel) :
    ∃ recs, recs.length = m ∧
      loadRecords (pre ++ rest) fuel = recs ++ loadRecords rest (fuel - m) := by
  have hP : PIXEL_BYTES = 4194304 := rfl
  induction m generalizing pre fuel with
  | zero =>
    have hnil : pre = [] := List.length_eq_zero.mp (by omega)
    subst hnil
    exact ⟨[], rfl, by simp⟩
  | succ k ih =>
    cases fuel with
    | zero => omega
    | succ f =>
      rw [show (k + 1) * (8 + PIXEL_BYTES) = k * (8 + PIXEL_BYTES) + (8 + PIXEL_BYTES)
        from Nat.succ_mul _ _] at hpre
      set A := k * (8 + PIXEL_BYTES) with hA
      have h8 : 8 ≤ pre.length := by omega
      have hread := readGridPos_of_length (pre ++ rest)
        (by rw [List.length_append]; omega)
      have hdrop8 : (pre ++ rest).drop 8 = pre.drop 8 ++ rest := by
        rw [List.drop_append_eq_append_drop]
        rw [show (8 - pre.length) = 0 from by omega]
        rw [List.drop_zero]
      have hdlen : (pre.drop 8).length = PIXEL_BYTES + A := by
        rw [List.length_drop]
        omega
      have hpix : readPixels (pre.drop 8 ++ rest) =
          ((pre.drop 8).take PIXEL_BYTES, (pre.drop 8).drop PIXEL_BYTES ++ rest) := by
        unfold readPixels
        rw [List.take_append_eq_append_take, List.drop_append_eq_append_drop]
        rw [show PIXEL_BYTES - (pre.drop 8).length = 0 from by omega]
        simp
      have hrlen2 : ((pre.drop 8).drop PIXEL_BYTES).length = A := by
        rw [List.length_drop, hdlen]
        omega
      obtain ⟨recs, hrl, hradd⟩ := ih ((pre.drop 8).drop PIXEL_BYTES) f hrlen2 (by omega)
      refine ⟨((intOfF32bits (leNat ((pre ++ rest).getD 0 0) ((pre ++ rest).getD 1 0)
          ((pre ++ rest).getD 2 0) ((pre ++ rest).getD 3 0)),
        intOfF32bits (leNat ((pre ++ rest).getD 4 0) ((pre ++ rest).getD 5 0)
          ((pre ++ rest).getD 6 0) ((pre ++ rest).getD 7 0))),
        (pre.drop 8).take PIXEL_BYTES) :: recs, by simp only [List.length_cons]; omega, ?_⟩
      rw [loadRecords_succ]
      simp only [hread, hdrop8, hpix]
      rw [hradd]
      rw [show f + 1 - (k + 1) = f - k from by omega]
      rw [List.cons_append]

/-- `Canvas_Load` on a validated header: clear the state, then stream the
records into the cache. -/
theorem canvasLoad_ok (c : Canvas) {s s1 s2 : List Nat} {magic version : Nat}
    (h1 : readU32 s = some (magic, s1)) (h2 : readU32 s1 = some (version, s2))
    (hm : magic = SAVE_FILE_MAGIC) (hv : version = SAVE_FILE_VERSION) :
    Canvas_Load c (some s) =
      (LoadResult.ok, { clearState c with
        cache := fillCache (clearState c).cache (loadRecords s2 c.cache.length) }) := by
  subst hm
  subst hv
  unfold Canvas_Load
  simp only [h1, h2]
  split
  · rfl
  · next hneg => simp at hneg

/-- `Canvas_Load` on a header mismatch: return before any mutation. -/
theorem canvasLoad_badHeader (c : Canvas) {s s1 s2 : List Nat} {magic version : Nat}
    (h1 : readU32 s = some (magic, s1)) (h2 : readU32 s1 = some (version, s2))
    (hbad : magic ≠ SAVE_FILE_MAGIC ∨ version ≠ SAVE_FILE_VERSION) :
    Canvas_Load c (some s) = (LoadResult.badHeader, c) := by
  unfold Canvas_Load
  simp only [h1, h2]
  split
  · next hpos =>
    rcases hbad with h | h
    · exact absurd hpos.1 h
    · exact absurd hpos.2 h
  · rfl

/-- C6: Load failure atomicity — an unopenable file, and a header whose
magic or version does not match the expected constants exactly, abort
`Canvas_Load` before any state mutation: the Active Pool, the Chunk Cache
and both undo/redo stacks are exactly as before the call.  Only after the
header validates is the state cleared and the record stream copied into
the cache. -/
theorem claim6_load_failure_atomicity (c : Canvas) :
    Canvas_Load c none = (LoadResult.openFail, c) ∧
    (∀ s magic s1 version s2, readU32 s = some (magic, s1) →
      readU32 s1 = some (version, s2) →
      magic ≠ SAVE_FILE_MAGIC ∨ version ≠ SAVE_FILE_VERSION →
      Canvas_Load c (some s) = (LoadResult.badHeader, c)) ∧
    (∀ s magic s1 version s2, readU32 s = some (magic, s1) →
      readU32 s1 = some (version, s2) →
      magic = SAVE_FILE_MAGIC → version = SAVE_FILE_VERSION →
      Canvas_Load c (some s) = (LoadResult.ok,
        { clearState c with
          cache := fillCache (clearState c).cache (loadRecords s2 c.cache.length) })) := by
  refine ⟨rfl, ?_, ?_⟩
  · intro s magic s1 version s2 h1 h2 hbad
    exact canvasLoad_badHeader c h1 h2 hbad
  · intro s magic s1 version s2 h1 h2 hm hv
    exact canvasLoad_ok c h1 h2 hm hv

theorem claim6_witness :
    Canvas_Load c2Canvas (some c6File) = (LoadResult.badHeader, c2Canvas) ∧
    Canvas_Load c2Canvas none = (LoadResult.openFail, c2Canvas) := by
  have h := claim6_load_failure_atomicity c2Canvas
  exact ⟨h.2.1 c6File 0 (u32le SAVE_FILE_VERSION) SAVE_FILE_VERSION [] rfl rfl
    (Or.inl (by decide)), h.1⟩

/-- C7 counterexample: the record coordinate bytes `Canvas_Save` writes are
the IEEE-754 float encoding of the grid coordinate (byte 8 of the file for
`gridX = 1` is `0x00`, with `0x3F80` in the high bytes), not the `i32`
little-endian encoding claimed (`0x01` at byte 8).  The full byte stream
therefore differs from the claimed layout at this input. -/
theorem claim7_counterexample :
    (Canvas_Save_bytes c7cxCanvas).getD 8 0 = 0 ∧
    (claimedSaveBytes c7cxCanvas).getD 8 0 = 1 ∧
    Canvas_Save_bytes c7cxCanvas ≠ claimedSaveBytes c7cxCanvas := by
  refine ⟨by decide, by decide, by decide⟩

/-- C7 as amended: every record written by `Canvas_Save` encodes the grid
coordinate as two 32-bit IEEE-754 floats (`f32 gridX, f32 gridY`) — not
two `i32` values — followed by the `S*S*4` RGBA8 pixel bytes (row-major,
top-to-bottom), after a header of `u32 magic` and `u32 version`; and
`Canvas_Load` consumes exactly that layout: loading the saved byte stream
recovers precisely the saved records (for the exactly-representable
coordinates the program stores, full-size payloads, and a destination
cache with room for every record). -/
theorem claim7_record_layout (c cDest : Canvas)
    (hb : ∀ r ∈ Canvas_Save_records c, r.1.1.natAbs < 2 ^ 24 ∧ r.1.2.natAbs < 2 ^ 24)
    (hlen : ∀ r ∈ Canvas_Save_records c, r.2.length = PIXEL_BYTES)
    (hcount : (Canvas_Save_records c).length ≤ cDest.cache.length) :
    Canvas_Save_bytes c = u32le SAVE_FILE_MAGIC ++ u32le SAVE_FILE_VERSION ++
      (Canvas_Save_records c).flatMap (fun r => f32le r.1.1 ++ f32le r.1.2 ++ r.2) ∧
    Canvas_Load cDest (some (Canvas_Save_bytes c)) =
      (LoadResult.ok, { clearState cDest with
        cache := fillCache (clearState cDest).cache (Canvas_Save_records c) }) := by
  constructor
  · rfl
  · have h1 : readU32 (Canvas_Save_bytes c) = some (SAVE_FILE_MAGIC,
        u32le SAVE_FILE_VERSION ++ (Canvas_Save_records c).flatMap encodeRecord) :=
      readU32_u32le SAVE_FILE_MAGIC
        (u32le SAVE_FILE_VERSION ++ (Canvas_Save_records c).flatMap encodeRecord) (by decide)
    have h2 := readU32_u32le SAVE_FILE_VERSION
      ((Canvas_Save_records c).flatMap encodeRecord) (by decide)
    rw [canvasLoad_ok cDest h1 h2 rfl rfl]
    rw [loadRecords_encode (Canvas_Save_records c) cDest.cache.length hb hlen hcount]

theorem claim7_witness :
    Canvas_Save_bytes c7Canvas = u32le SAVE_FILE_MAGIC ++ u32le SAVE_FILE_VERSION ++
      (Canvas_Save_records c7Canvas).flatMap (fun r => f32le r.1.1 ++ f32le r.1.2 ++ r.2) ∧
    Canvas_Load c7Dest (some (Canvas_Save_bytes c7Canvas)) =
      (LoadResult.ok, { clearState c7Dest with
        cache := fillCache (clearState c7Dest).cache (Canvas_Save_records c7Canvas) }) := by
  have hrecs : Canvas_Save_records c7Canvas = [((1, 0), List.replicate PIXEL_BYTES 0)] := rfl
  refine claim7_record_layout c7Canvas c7Dest ?_ ?_ ?_
  · intro r hr
    rw [hrecs, List.mem_singleton] at hr
    subst hr
    exact ⟨by decide, by decide⟩
  · intro r hr
    rw [hrecs, List.mem_singleton] at hr
    subst hr
    exact List.length_replicate _ _
  · rw [hrecs]
    decide

/-- C8 counterexample: `Canvas_Save` never assigns any chunk field — after
the save serialises the resident modified chunk of `c8Canvas`, that
chunk's `modified` flag is still `true`, contradicting the claim that it
"is no longer true". -/
theorem claim8_counterexample :
    (getChunk c8Canvas 0).modified = true ∧
    (getChunk (Canvas_Save_state c8Canvas) 0).modified = true := by
  exact ⟨rfl, rfl⟩

/-- C8 as amended: an active chunk's `modified` flag becomes true the
instant any drawing call targets it (`Canvas_BeginTextureMode`) and is
never cleared by reads — in particular `Canvas_Save` leaves the whole
canvas, and hence every chunk's `modified` flag, exactly unchanged; the
flag only disappears with the chunk when its slot is deactivated on
eviction. -/
theorem claim8_modified_flag (c : Canvas) (g : Int × Int) (i : Nat) (c' : Canvas)
    (h : Canvas_BeginTextureMode c g = some (i, c')) :
    (getChunk c' i).modified = true ∧
    (∀ cAny : Canvas, Canvas_Save_state cAny = cAny) ∧
    (∀ k, (getChunk (Canvas_Save_state c') k).modified = (getChunk c' k).modified) := by
  refine ⟨?_, fun _ => rfl, fun _ => rfl⟩
  unfold Canvas_BeginTextureMode at h
  cases hg : GetAndActivateChunk c g with
  | none => rw [hg] at h; exact absurd h (by simp)
  | some p =>
    obtain ⟨i0, c0⟩ := p
    rw [hg] at h
    simp only [Option.some_inj, Prod.mk.injEq] at h
    obtain ⟨rfl, rfl⟩ := h
    obtain ⟨hlen, _, _, hi0, _, _, _, _, _⟩ := gac_frame c g i0 c0 hg
    show ((c0.chunks.set i0 _).getD i0 default).modified = true
    rw [getD_set_self _ _ _ (by omega)]

theorem claim8_witness :
    ∃ i c', Canvas_BeginTextureMode c8Canvas (0, 0) = some (i, c') ∧
      (getChunk c' i).modified = true ∧ Canvas_Save_state c' = c' := by
  cases hbtm : Canvas_BeginTextureMode c8Canvas (0, 0) with
  | none => exact absurd hbtm (by decide)
  | some p =>
    obtain ⟨i, c'⟩ := p
    have h := claim8_modified_flag c8Canvas (0, 0) i c' hbtm
    exact ⟨i, c', rfl, h.1, h.2.1 c'⟩

/-- C10: Load accepts truncated pixel payloads — for any stream whose
header validates, whose body starts with `m` complete records and whose
final record has a complete 8-byte coordinate but fewer than `S*S*4`
remaining bytes, `Canvas_Load` still marks cache slot `m` active, holding
the partially filled buffer (the bytes that were read; the rest of the
allocation stays uninitialized), and completes reporting success — the
short pixel read is never detected. -/
theorem claim10_truncated_pixels (c : Canvas) (pre g8 tail : List Nat) (m : Nat)
    (hpre : pre.length = m * (8 + PIXEL_BYTES))
    (hg8 : g8.length = 8)
    (htail : tail.length < PIXEL_BYTES)
    (hm : m < c.cache.length) :
    (Canvas_Load c (some (u32le SAVE_FILE_MAGIC ++
      (u32le SAVE_FILE_VERSION ++ (pre ++ (g8 ++ tail)))))).1 = LoadResult.ok ∧
    ((Canvas_Load c (some (u32le SAVE_FILE_MAGIC ++
        (u32le SAVE_FILE_VERSION ++ (pre ++ (g8 ++ tail)))))).2.cache.getD m default) =
      { image := tail
        gridPos := (intOfF32bits (leNat (g8.getD 0 0) (g8.getD 1 0) (g8.getD 2 0) (g8.getD 3 0)),
          intOfF32bits (leNat (g8.getD 4 0) (g8.getD 5 0) (g8.getD 6 0) (g8.getD 7 0)))
        active := true } := by
  have h1 := readU32_u32le SAVE_FILE_MAGIC
    (u32le SAVE_FILE_VERSION ++ (pre ++ (g8 ++ tail))) (by decide)
  have h2 := readU32_u32le SAVE_FILE_VERSION (pre ++ (g8 ++ tail)) (by decide)
  obtain ⟨recs, hrlen, hrec⟩ :=
    loadRecords_skip m pre (g8 ++ tail) c.cache.length hpre (by omega)
  obtain ⟨f, hf⟩ : ∃ f, c.cache.length - m = f + 1 := ⟨c.cache.length - m - 1, by omega⟩
  have hread := readGridPos_of_length (g8 ++ tail) (by rw [List.length_append]; omega)
  have e0 : (g8 ++ tail).getD 0 0 = g8.getD 0 0 := getD_append_lt _ _ _ _ (by omega)
  have e1 : (g8 ++ tail).getD 1 0 = g8.getD 1 0 := getD_append_lt _ _ _ _ (by omega)
  have e2 : (g8 ++ tail).getD 2 0 = g8.getD 2 0 := getD_append_lt _ _ _ _ (by omega)
  have e3 : (g8 ++ tail).getD 3 0 = g8.getD 3 0 := getD_append_lt _ _ _ _ (by omega)
  have e4 : (g8 ++ tail).getD 4 0 = g8.getD 4 0 := getD_append_lt _ _ _ _ (by omega)
  have e5 : (g8 ++ tail).getD 5 0 = g8.getD 5 0 := getD_append_lt _ _ _ _ (by omega)
  have e6 : (g8 ++ tail).getD 6 0 = g8.getD 6 0 := getD_append_lt _ _ _ _ (by omega)
  have e7 : (g8 ++ tail).getD 7 0 = g8.getD 7 0 := getD_append_lt _ _ _ _ (by omega)
  have hrp : readPixels tail = (tail, ([] : List Nat)) := by
    unfold readPixels
    rw [List.take_of_length_le (by omega), List.drop_eq_nil_of_le (by omega)]
  have htl : loadRecords (g8 ++ tail) (f + 1) =
      [((intOfF32bits (leNat (g8.getD 0 0) (g8.getD 1 0) (g8.getD 2 0) (g8.getD 3 0)),
         intOfF32bits (leNat (g8.getD 4 0) (g8.getD 5 0) (g8.getD 6 0) (g8.getD 7 0))),
        tail)] := by
    rw [loadRecords_succ]
    simp only [hread, List.drop_left' hg8, hrp]
    rw [loadRecords_nil_stream]
    rw [e0, e1, e2, e3, e4, e5, e6, e7]
  have hrecords : loadRecords (pre ++ (g8 ++ tail)) c.cache.length =
      recs ++ [((intOfF32bits (leNat (g8.getD 0 0) (g8.getD 1 0) (g8.getD 2 0) (g8.getD 3 0)),
         intOfF32bits (leNat (g8.getD 4 0) (g8.getD 5 0) (g8.getD 6 0) (g8.getD 7 0))),
        tail)] := by
    rw [hrec, hf, htl]
  rw [canvasLoad_ok c h1 h2 rfl rfl]
  refine ⟨rfl, ?_⟩
  show (fillCache (clearState c).cache
      (loadRecords (pre ++ (g8 ++ tail)) c.cache.length)).getD m default = _
  rw [hrecords, fillCache_getD]
  rw [if_pos ?side]
  case side =>
    constructor
    · rw [List.length_append, hrlen]
      simp only [List.length_singleton]
      omega
    · show m < (clearState c).cache.length
      unfold clearState
      simp only [List.length_map]
      omega
  have hget : (recs ++ [((intOfF32bits (leNat (g8.getD 0 0) (g8.getD 1 0) (g8.getD 2 0)
        (g8.getD 3 0)),
      intOfF32bits (leNat (g8.getD 4 0) (g8.getD 5 0) (g8.getD 6 0) (g8.getD 7 0))),
      tail)]).getD m default =
      ((intOfF32bits (leNat (g8.getD 0 0) (g8.getD 1 0) (g8.getD 2 0) (g8.getD 3 0)),
        intOfF32bits (leNat (g8.getD 4 0) (g8.getD 5 0) (g8.getD 6 0) (g8.getD 7 0))),
       tail) := by
    rw [← hrlen]
    exact getD_append_length _ _
  rw [hget]

theorem claim10_witness :
    (Canvas_Load c10Canvas (some (u32le SAVE_FILE_MAGIC ++
      (u32le SAVE_FILE_VERSION ++ ([] ++ ([0, 0, 128, 63, 0, 0, 0, 0] ++ [9])))))).1 =
      LoadResult.ok ∧
    ((Canvas_Load c10Canvas (some (u32le SAVE_FILE_MAGIC ++
        (u32le SAVE_FILE_VERSION ++
          ([] ++ ([0, 0, 128, 63, 0, 0, 0, 0] ++ [9])))))).2.cache.getD 0 default) =
      { image := [9]
        gridPos := (intOfF32bits (leNat 0 0 128 63), intOfF32bits (leNat 0 0 0 0))
        active := true } :=
  claim10_truncated_pixels c10Canvas [] [0, 0, 128, 63, 0, 0, 0, 0] [9] 0
    (by decide) (by decide) (by decide) (by decide)

end CCanvas
